import Mathlib

/-!
Verification development for the discord-reminder bot (src/index.js).

Shallow embedding conventions:

* Instants are modelled as `Int` values, the number of milliseconds since the
  Unix epoch (the value of a JS `Date` / Luxon `DateTime.valueOf()`).
* The fixed zone is Asia/Kolkata, which has had a constant +05:30 offset for
  the whole era the bot can handle; it has no daylight saving.  Consequently
  Luxon calendar-day arithmetic (`plus days/weeks/hours`) in this zone shifts
  the underlying instant by an exact multiple of a constant, while month and
  year arithmetic decomposes the local calendar date (proleptic Gregorian,
  with end-of-month clamping, exactly as Luxon does).
* The host clock zone (the zone `new Date` and `DateTime.fromJSDate` read) is
  a parameter `hostOffsetMs`; the comments in src/index.js state the bot host
  runs in UTC (`hostOffsetMs = 0`), but nothing in the code fixes it.
* Fallible values are `Option`: an invalid Luxon `DateTime` or a `Date`
  holding `NaN` is `none`.
-/

/-- Milliseconds of the fixed Asia/Kolkata offset (+05:30). -/
def istOffsetMs : Int := 19800000

/-- Milliseconds in one day. -/
def dayMs : Int := 86400000

/-- Milliseconds in one hour. -/
def hourMs : Int := 3600000

/-- Milliseconds into the local (IST) day of an instant. -/
def localMsOfDay (t : Int) : Int := (t + istOffsetMs) % dayMs

/-- Instant of the IST-local midnight of the day containing `t`. -/
def dayStart (t : Int) : Int := t - localMsOfDay t

/-- IST-local hour of an instant, as Luxon `dt.hour`. -/
def hourOf (t : Int) : Int := localMsOfDay t / 3600000

/-- IST-local minute of an instant, as Luxon `dt.minute`. -/
def minuteOf (t : Int) : Int := localMsOfDay t / 60000 % 60

/-- IST-local second of an instant, as Luxon `dt.second`. -/
def secondOf (t : Int) : Int := localMsOfDay t / 1000 % 60

/-- IST-local millisecond of an instant, as Luxon `dt.millisecond`. -/
def msOf (t : Int) : Int := localMsOfDay t % 1000

/-- Luxon `dt.set` with all four time-of-day components: keep the local
calendar day, replace the local time of day.  In a fixed-offset zone this is
exact instant arithmetic. -/
def setTime (t h mi s ms : Int) : Int :=
  dayStart t + h * 3600000 + mi * 60000 + s * 1000 + ms

/-- ISO weekday (1 = Monday .. 7 = Sunday) of the IST-local day containing
`t`, as Luxon `dt.weekday`.  1970-01-01 was a Thursday (ISO 4). -/
def istWeekday (t : Int) : Int :=
  ((t + istOffsetMs) / dayMs + 3) % 7 + 1

/-- Proleptic-Gregorian leap-year test. -/
def isLeapYear (y : Int) : Bool :=
  (y % 4 == 0 && y % 100 != 0) || y % 400 == 0

/-- Days in a Gregorian month. -/
def daysInMonth (y m : Int) : Int :=
  if m = 2 then (if isLeapYear y then 29 else 28)
  else if m = 4 ∨ m = 6 ∨ m = 9 ∨ m = 11 then 30
  else 31

/-- Days since 1970-01-01 of a Gregorian date (the classical civil-to-days
conversion used by calendar libraries). -/
def epochDayOfYmd (y m d : Int) : Int :=
  let y' := if m ≤ 2 then y - 1 else y
  let era := y' / 400
  let yoe := y' - era * 400
  let mp := if m > 2 then m - 3 else m + 9
  let doy := (153 * mp + 2) / 5 + d - 1
  let doe := yoe * 365 + yoe / 4 - yoe / 100 + doy
  era * 146097 + doe - 719468

/-- Gregorian date of a days-since-epoch count (inverse civil conversion). -/
def ymdOfEpochDay (z0 : Int) : Int × Int × Int :=
  let z := z0 + 719468
  let era := z / 146097
  let doe := z - era * 146097
  let yoe := (doe - doe / 1460 + doe / 36524 - doe / 146096) / 365
  let y := yoe + era * 400
  let doy := doe - (365 * yoe + yoe / 4 - yoe / 100)
  let mp := (5 * doy + 2) / 153
  let d := doy - (153 * mp + 2) / 5 + 1
  let m := if mp < 10 then mp + 3 else mp - 9
  (if m ≤ 2 then y + 1 else y, m, d)

/-- IST-local Gregorian date of an instant. -/
def istDateOf (t : Int) : Int × Int × Int :=
  ymdOfEpochDay ((t + istOffsetMs) / dayMs)

/-- Luxon `plus` by calendar months in the fixed zone: add to the month,
clamp the day-of-month, keep the local time of day. -/
def addMonthsIST (t n : Int) : Int :=
  let ymd := istDateOf t
  let mm := ymd.2.1 - 1 + n
  let y' := ymd.1 + mm / 12
  let m' := mm % 12 + 1
  let d' := min ymd.2.2 (daysInMonth y' m')
  epochDayOfYmd y' m' d' * dayMs + localMsOfDay t - istOffsetMs

/-- Luxon `plus` by calendar years in the fixed zone: add to the year, clamp
the day-of-month (Feb 29 to Feb 28), keep the local time of day. -/
def addYearsIST (t n : Int) : Int :=
  let ymd := istDateOf t
  let d' := min ymd.2.2 (daysInMonth (ymd.1 + n) ymd.2.1)
  epochDayOfYmd (ymd.1 + n) ymd.2.1 d' * dayMs + localMsOfDay t - istOffsetMs

/-- Recurrence identifiers from the `repeat` slash-command choices.
`unrecognized` stands for any other string stored in `recurrence.type`
(which falls into the `default` branch of `getNextRecurrenceDateTime`). -/
inductive Recurrence
  | hourly
  | daily
  | weekday
  | weekly
  | monthly
  | yearly
  | unrecognized
deriving DecidableEq, Repr

/-- The `while (next.weekday > 5)` loop of the weekday recurrence case:
step one day at a time until landing on Monday..Friday; the `guard` counter
aborts with `null` once it exceeds 7.  Fuel 8 makes the recursion structural;
the fuel can only run out after the guard has already aborted. -/
def weekdayLoop (fuel : Nat) (next : Int) (guard : Nat) : Option Int :=
  if istWeekday next > 5 then
    match fuel with
    | 0 => none
    | f + 1 =>
      let next' := next + dayMs
      let guard' := guard + 1
      if guard' > 7 then none else weekdayLoop f next' guard'
  else some next

/-- `getNextRecurrenceDateTime(currentIST, recurrenceType)` from src/index.js.
`none` on the left models an invalid Luxon `DateTime`
(`!currentIST.isValid`). -/
def getNextRecurrenceDateTime (currentIST : Option Int) (recurrenceType : Recurrence) :
    Option Int :=
  match currentIST with
  | none => none
  | some t =>
    match recurrenceType with
    | .hourly => some (t + hourMs)
    | .daily => some (t + dayMs)
    | .weekday => weekdayLoop 8 (t + dayMs) 0
    | .weekly => some (t + 7 * dayMs)
    | .monthly => some (addMonthsIST t 1)
    | .yearly => some (addYearsIST t 1)
    | .unrecognized => none

/-- Iterated recurrence advancement: `stepIter kind n t` is the value of
`n` successive `getNextRecurrenceDateTime` applications starting from `t`
(`none` once any step yields `none`). -/
def stepIter (kind : Recurrence) : Nat → Int → Option Int
  | 0, t => some t
  | n + 1, t =>
    match getNextRecurrenceDateTime (some t) kind with
    | none => none
    | some u => stepIter kind n u

/-- The advancement `do..while` loop shared by the startup reconciliation
handler and the fire callback:

```
do { nextIST = getNextRecurrenceDateTime(nextIST, type); iterations += 1;
     if (!nextIST) break; }
while (nextIST <= nowIST && iterations < 400);
```

Returns the final `nextIST` together with the final `iterations` count.
Fuel 400 is enough because the loop body runs at most 400 times. -/
def advLoop (kind : Recurrence) (now : Int) : Nat → Int → Nat → Option Int × Nat
  | fuel, t, iters =>
    match getNextRecurrenceDateTime (some t) kind with
    | none => (none, iters + 1)
    | some n =>
      if n ≤ now ∧ iters + 1 < 400 then
        match fuel with
        | 0 => (some n, iters + 1)
        | f + 1 => advLoop kind now f n (iters + 1)
      else (some n, iters + 1)

/-- Outcome of the advancement loop followed by the
`if (nextIST && iterations < 400)` test: `some d` means the record is
advanced to `d`, `none` means the loop is treated as recurrence
exhaustion. -/
def reconcileAdvance (kind : Recurrence) (now t : Int) : Option Int :=
  match advLoop kind now 400 t 0 with
  | (some n, iters) => if iters < 400 then some n else none
  | (none, _) => none

/-- Advancement started from a possibly invalid stored `remindAt`
(`DateTime.fromISO` of a bad string is invalid, so the first loop step
yields `null` and the outcome is exhaustion). -/
def reconcileAdvanceO (kind : Recurrence) (now : Int) : Option Int → Option Int
  | none => none
  | some t => reconcileAdvance kind now t

/-! ## Scheduler state: timer registry, persisted store, handlers -/

/-- A `node-schedule` job handle created by `schedule.scheduleJob`.  `jid` is
the allocation identity of the handle, `rid` the reminder it was created for,
`fireAtMs` the instant it is set for.  `cancelled` records a `job.cancel()`
call; `fired` records that the scheduled callback has run (the handle has
consumed itself). -/
structure Job where
  jid : Nat
  rid : String
  fireAtMs : Int
  cancelled : Bool
  fired : Bool
deriving DecidableEq, Repr

/-- A handle that can still fire: neither cancelled nor already fired. -/
def jobLive (j : Job) : Bool := !j.cancelled && !j.fired

/-- Lookup in the `scheduledJobs` `Map` (keyed by reminder id). -/
def mapGet : List (String × Nat) → String → Option Nat
  | [], _ => none
  | (k, v) :: rest, key => if k = key then some v else mapGet rest key

/-- `Map.delete`. -/
def mapDelete : List (String × Nat) → String → List (String × Nat)
  | [], _ => []
  | (k, v) :: rest, key =>
    if k = key then mapDelete rest key else (k, v) :: mapDelete rest key

/-- `Map.set`: replace any binding of the key.  (JS `Map.set` updates in
place; only lookup behaviour matters here, so entry order is free.) -/
def mapSet (m : List (String × Nat)) (key : String) (v : Nat) : List (String × Nat) :=
  (key, v) :: mapDelete m key

/-- The process state the scheduling code mutates: the global `scheduledJobs`
map plus the allocation table of every job handle ever created (`nextJid` is
the next fresh handle identity). -/
structure SchedState where
  scheduledJobs : List (String × Nat)
  jobs : List Job
  nextJid : Nat
deriving DecidableEq, Repr

/-- `cancelScheduledJob(reminderId)` from src/index.js: cancel the mapped
handle if there is one, then drop the map entry. -/
def cancelScheduledJob (reminderId : String) (s : SchedState) : SchedState :=
  match mapGet s.scheduledJobs reminderId with
  | some jid =>
    { s with
      jobs := s.jobs.map (fun j => if j.jid = jid then { j with cancelled := true } else j),
      scheduledJobs := mapDelete s.scheduledJobs reminderId }
  | none => { s with scheduledJobs := mapDelete s.scheduledJobs reminderId }

/-- A persisted reminder record (the JSON payload of one storage message).
`remindAt` encodes the JS field: `none` is a missing/null field (falsy),
`some none` a string `new Date` cannot parse (`NaN`), `some (some t)` a
valid instant. -/
structure Reminder where
  id : String
  userId : String
  channelId : String
  remindAt : Option (Option Int)
  title : Option String
  recurrence : Option Recurrence
  triggered : Bool
deriving DecidableEq, Repr

/-- `scheduleReminder(reminder)` from src/index.js, acting on the timer
state.  `now` is the wall clock at the call (`new Date()`).  The early
returns: missing reminder or `remindAt`, unparsable date, or a fire time not
strictly in the future.  Otherwise cancel any pre-existing job for the id,
create a fresh job and store its handle. -/
def scheduleReminder (reminder : Option Reminder) (now : Int) (s : SchedState) : SchedState :=
  match reminder with
  | none => s
  | some r =>
    match r.remindAt with
    | none => s
    | some none => s
    | some (some t) =>
      if t ≤ now then s
      else
        let s1 := cancelScheduledJob r.id s
        { s1 with
          jobs := s1.jobs ++ [{ jid := s1.nextJid, rid := r.id, fireAtMs := t,
                                cancelled := false, fired := false }],
          scheduledJobs := mapSet s1.scheduledJobs r.id s1.nextJid,
          nextJid := s1.nextJid + 1 }

/-- A message in the storage channel: `content` is `some r` when the message
body is a JSON reminder payload, `none` when it does not parse. -/
structure StoreMsg where
  mid : Nat
  content : Option Reminder
deriving DecidableEq, Repr

/-- `fetchStoredReminderMessage(storageChannel, reminderId, expectedUserId)`:
linear scan for the first parsable message whose `id` matches and whose
`userId` matches the expected owner when one is supplied. -/
def fetchStoredReminderMessage :
    List StoreMsg → String → Option String → Option (Nat × Reminder)
  | [], _, _ => none
  | m :: rest, reminderId, expectedUserId =>
    match m.content with
    | some data =>
      if data.id = reminderId ∧ (expectedUserId = none ∨ expectedUserId = some data.userId)
      then some (m.mid, data)
      else fetchStoredReminderMessage rest reminderId expectedUserId
    | none => fetchStoredReminderMessage rest reminderId expectedUserId

/-- The ownerless `messages.find` scan used by the fire callback and the
reconciliation handler. -/
def findMsgById : List StoreMsg → String → Option (Nat × Reminder)
  | [], _ => none
  | m :: rest, reminderId =>
    match m.content with
    | some data => if data.id = reminderId then some (m.mid, data) else findMsgById rest reminderId
    | none => findMsgById rest reminderId

/-- `message.edit(JSON.stringify(newContent))` on the message with id `mid`. -/
def editMsg (store : List StoreMsg) (mid : Nat) (newContent : Reminder) : List StoreMsg :=
  store.map (fun m => if m.mid = mid then { m with content := some newContent } else m)

/-- `message.delete()` on the message with id `mid`. -/
def deleteMsg (store : List StoreMsg) (mid : Nat) : List StoreMsg :=
  store.filter (fun m => decide (m.mid ≠ mid))

/-- A delivered reminder message (channel send with the snooze/cancel
buttons). -/
structure Notification where
  channelId : String
  userId : String
  title : Option String
deriving DecidableEq, Repr

/-- Everything the handlers touch: the timer state, the storage channel
contents, the notifications sent so far, the set of fetchable channels, the
availability of the storage channel, and the next storage message id. -/
structure World where
  sched : SchedState
  store : List StoreMsg
  sent : List Notification
  channels : List String
  storageOk : Bool
  nextMid : Nat
deriving DecidableEq, Repr

/-- The callback body `scheduleReminder` installs (src/index.js lines
418-499), run when the job with handle identity `jid` fires for the closure
reminder `r` at wall clock `now`.  It first marks its own (fired) handle and
removes the registry entry without cancelling, sends the notification, then
re-fetches the persisted record by id and either advances the recurrence
(advancement loop started from the closure `reminder.remindAt`) or marks the
record triggered. -/
def fireCallback (jid : Nat) (r : Reminder) (now : Int) (w : World) : World :=
  let sched0 : SchedState :=
    { w.sched with
      jobs := w.sched.jobs.map (fun j => if j.jid = jid then { j with fired := true } else j),
      scheduledJobs := mapDelete w.sched.scheduledJobs r.id }
  let w1 := { w with sched := sched0 }
  if r.channelId ∈ w.channels then
    let note : Notification := { channelId := r.channelId, userId := r.userId, title := r.title }
    let w2 := { w1 with sent := w1.sent ++ [note] }
    if w2.storageOk then
      match findMsgById w2.store r.id with
      | none => w2
      | some (mid, currentData) =>
        match currentData.recurrence with
        | some kind =>
          match reconcileAdvanceO kind now (r.remindAt.bind id) with
          | some d =>
            let upd := { currentData with remindAt := some (some d), triggered := false }
            { w2 with store := editMsg w2.store mid upd,
                      sched := scheduleReminder (some upd) now w2.sched }
          | none =>
            { w2 with store := editMsg w2.store mid { currentData with triggered := true } }
        | none =>
          { w2 with store := editMsg w2.store mid { currentData with triggered := true } }
    else w2
  else w1

/-- Startup reconciliation of a single storage message (the body of the
`messages.forEach` in the `ready` handler, src/index.js lines 516-548). -/
def reconcileMsgStep (now : Int) (msg : StoreMsg) (w : World) : World :=
  match msg.content with
  | none => w
  | some data =>
    if Option.any (fun t => decide (now < t)) (data.remindAt.bind id) then
      { w with sched := scheduleReminder (some data) now w.sched }
    else
      match data.recurrence with
      | some kind =>
        match reconcileAdvanceO kind now (data.remindAt.bind id) with
        | some d =>
          let data' := { data with remindAt := some (some d) }
          { w with store := editMsg w.store msg.mid data',
                   sched := scheduleReminder (some data') now w.sched }
        | none => { w with store := deleteMsg w.store msg.mid }
      | none => { w with store := deleteMsg w.store msg.mid }

/-- Replies of the `/rme` command handler. -/
inductive CreateReply
  | unparsable
  | timeInPast
  | storeUnavailable
  | ok (ackAtMs : Int) (reminderId : String)
deriving DecidableEq, Repr

/-- The `/rme` command handler (src/index.js lines 557-619) after natural
language parsing: `parsed` is the result of `parseReminderDateTime`,
`baseIST` the reference captured before parsing, `nowWall` the wall clock at
the re-check (`new Date()`). -/
def rmeCommandHandler (parsed : Option Int) (baseIST nowWall : Int)
    (reminderId userId channelId : String) (title : Option String)
    (rep : Option Recurrence) (w : World) : World × CreateReply :=
  match parsed with
  | none => (w, .unparsable)
  | some dt0 =>
    let dt := if dt0 ≤ baseIST then dt0 + dayMs else dt0
    if dt ≤ nowWall then (w, .timeInPast)
    else if w.storageOk = false then (w, .storeUnavailable)
    else
      let reminderData : Reminder :=
        { id := reminderId, userId := userId, channelId := channelId,
          remindAt := some (some dt), title := title, recurrence := rep, triggered := false }
      ({ w with store := w.store ++ [{ mid := w.nextMid, content := some reminderData }],
                nextMid := w.nextMid + 1,
                sched := scheduleReminder (some reminderData) nowWall w.sched },
       .ok dt reminderId)

/-- Replies of the `/delrme` command handler and the cancel button. -/
inductive DeleteReply
  | storeUnavailable
  | notFound
  | deleted
deriving DecidableEq, Repr

/-- The `/delrme` command handler (src/index.js lines 620-644). -/
def delrmeHandler (reminderId requesterId : String) (w : World) : World × DeleteReply :=
  if w.storageOk = false then (w, .storeUnavailable)
  else
    match fetchStoredReminderMessage w.store reminderId (some requesterId) with
    | none => (w, .notFound)
    | some (mid, _) =>
      ({ w with sched := cancelScheduledJob reminderId w.sched,
                store := deleteMsg w.store mid },
       .deleted)

/-- The cancel button branch of the interaction handler (src/index.js lines
684-711); operationally identical to `/delrme`. -/
def cancelButtonHandler (reminderId requesterId : String) (w : World) : World × DeleteReply :=
  if w.storageOk = false then (w, .storeUnavailable)
  else
    match fetchStoredReminderMessage w.store reminderId (some requesterId) with
    | none => (w, .notFound)
    | some (mid, _) =>
      ({ w with sched := cancelScheduledJob reminderId w.sched,
                store := deleteMsg w.store mid },
       .deleted)

/-- Replies of the snooze button handler. -/
inductive SnoozeReply
  | storeUnavailable
  | notFound
  | snoozed (ackUnixSeconds : Int)
deriving DecidableEq, Repr

/-- The snooze button branch of the interaction handler (src/index.js lines
647-683), with the duration already decoded from the button custom id.  The
new `remindAt` is `DateTime.fromJSDate(now + d).setZone(Asia/Kolkata,
keepLocalTime)`: the host-zone wall-clock digits of the instant `now + d`
are re-read as IST, which shifts the instant by `hostOffsetMs -
istOffsetMs`.  The acknowledgement reports `Math.floor((now + d) / 1000)`,
the unshifted instant. -/
def snoozeButtonHandler (snoozeTimeMs : Int) (reminderId requesterId : String)
    (now hostOffsetMs : Int) (w : World) : World × SnoozeReply :=
  if w.storageOk = false then (w, .storeUnavailable)
  else
    match fetchStoredReminderMessage w.store reminderId (some requesterId) with
    | none => (w, .notFound)
    | some (mid, data) =>
      let newDateMs := now + snoozeTimeMs
      let newRemindAt := newDateMs + hostOffsetMs - istOffsetMs
      let updatedReminder := { data with
        remindAt := some (some newRemindAt),
        triggered := false }
      ({ w with store := editMsg w.store mid updatedReminder,
                sched := scheduleReminder (some updatedReminder) now w.sched },
       .snoozed (newDateMs / 1000))

/-- The certainty metadata and resolved date of the first `chrono.parse`
result (`results[0]`): the grammar is an external collaborator, so its
output is taken abstractly.  `dateMs` is the instant of
`parsedResult.date()`; the flags are `start.isCertain(...)`. -/
structure ChronoResult where
  dateMs : Int
  certainHour : Bool
  certainMinute : Bool
  certainSecond : Bool
  certainOffset : Bool
deriving DecidableEq, Repr

/-- The zone conversion step of `parseReminderDateTime`: without a certain
offset the host-zone wall clock is preserved into IST
(`setZone(..., { keepLocalTime })`), shifting the instant; with a certain
offset the instant is preserved. -/
def chronoConvertedIST (res : ChronoResult) (hostOffsetMs : Int) : Int :=
  if res.certainOffset = false then res.dateMs + hostOffsetMs - istOffsetMs else res.dateMs

/-- `parseReminderDateTime(timeInputRaw, baseIST)` from src/index.js, after
the external grammar has produced `res` (`none` models empty normalized
input, no parse results, or a missing date/start).  The certainty flags
decide which components of the result are kept, zeroed, or copied from the
reference instant. -/
def parseReminderDateTime (res : Option ChronoResult) (baseIST hostOffsetMs : Int) :
    Option Int :=
  match res with
  | none => none
  | some r =>
    let dt := chronoConvertedIST r hostOffsetMs
    let dt2 :=
      if r.certainHour = false then
        setTime dt (hourOf baseIST) (minuteOf baseIST) (secondOf baseIST) (msOf baseIST)
      else if r.certainMinute = false then setTime dt (hourOf dt) 0 0 0
      else if r.certainSecond = false then setTime dt (hourOf dt) (minuteOf dt) 0 0
      else dt
    some dt2

/-! ## Input normalization (`normalizeTimeInput`, `startsWithExplicitTime`)

The JS regexes are hand-compiled to recursive matchers on `List Char`.
Backtracking alternations and greedy optional/starred pieces become
preference-ordered candidate lists (`List.findSome?` takes the first
combination that lets the rest of the pattern succeed, which is exactly the
order a backtracking regex engine tries).  A JS `\b` holds at a position iff
exactly one of the neighbouring characters is a word character
(`[A-Za-z0-9_]`), end-of-string counting as a non-word character. -/

/-- JS whitespace class `\s`, restricted to the ASCII characters reminder
input can contain. -/
def isSpaceChar (c : Char) : Bool := c == ' ' || c == '\t' || c == '\n' || c == '\r'

/-- ASCII letter, the `[a-zA-Z]` class. -/
def isAsciiLetter (c : Char) : Bool := ('a' ≤ c && c ≤ 'z') || ('A' ≤ c && c ≤ 'Z')

/-- JS word-character class `\w`. -/
def isWordChar (c : Char) : Bool := isAsciiLetter c || c.isDigit || c == '_'

/-- ASCII lower-casing used for the case-insensitive `i` flag. -/
def lcChar (c : Char) : Char := c.toLower

/-- `String.prototype.trim` on both ends. -/
def trimChars (s : List Char) : List Char :=
  ((s.dropWhile isSpaceChar).reverse.dropWhile isSpaceChar).reverse

/-- `replace(/\s+/g, ' ')`: each maximal whitespace run becomes one space.
The flag records whether the previous character was whitespace. -/
def collapseWsGo : Bool → List Char → List Char
  | _, [] => []
  | prevSpace, c :: rest =>
    if isSpaceChar c then
      if prevSpace then collapseWsGo true rest
      else ' ' :: collapseWsGo true rest
    else c :: collapseWsGo false rest

/-- `replace(/([a-zA-Z])(\d)/g, '$1 $2')`: a space between a letter and a
following digit; scanning resumes after each matched pair. -/
def spaceLetterDigit : List Char → List Char
  | a :: b :: rest =>
    if isAsciiLetter a && b.isDigit then a :: ' ' :: b :: spaceLetterDigit rest
    else a :: spaceLetterDigit (b :: rest)
  | s => s

/-- `replace(/(\d)([a-zA-Z])/g, '$1 $2')`. -/
def spaceDigitLetter : List Char → List Char
  | a :: b :: rest =>
    if a.isDigit && isAsciiLetter b then a :: ' ' :: b :: spaceDigitLetter rest
    else a :: spaceDigitLetter (b :: rest)
  | s => s

/-- Word-boundary `\b` before a word character: the previous character (if
any) is not a word character. -/
def boundaryBefore (prev : Option Char) : Bool :=
  match prev with
  | none => true
  | some c => !isWordChar c

/-- Word-boundary `\b` after a match: `lastW` tells whether the last matched
character is a word character. -/
def boundaryAfterB (lastW : Bool) (s : List Char) : Bool :=
  match s with
  | [] => lastW
  | c :: _ => lastW != isWordChar c

/-- Case-insensitive literal-word match; returns the rest of the text. -/
def matchWordCI : List Char → List Char → Option (List Char)
  | [], rest => some rest
  | _ :: _, [] => none
  | p :: ps, c :: cs => if lcChar c == p then matchWordCI ps cs else none

/-- Literal word followed by `\b` (all pattern words end in a letter). -/
def matchWordCIBound (w s : List Char) : Option (List Char) :=
  match matchWordCI w s with
  | some rest => if boundaryAfterB true rest then some rest else none
  | none => none

/-- Candidates for `\d{1,2}` in greedy order (two digits preferred):
`(consumed, last-is-word, rest)`. -/
def digitCands : List Char → List (Nat × Bool × List Char)
  | a :: b :: rest =>
    (if a.isDigit && b.isDigit then [(2, true, rest)] else []) ++
    (if a.isDigit then [(1, true, b :: rest)] else [])
  | [a] => if a.isDigit then [(1, true, [])] else []
  | [] => []

/-- Candidates for the optional `(?::\d{2})?` (present preferred). -/
def colonCands (lastW : Bool) (s : List Char) : List (Nat × Bool × List Char) :=
  (match s with
   | ':' :: a :: b :: rest => if a.isDigit && b.isDigit then [(3, true, rest)] else []
   | _ => []) ++ [(0, lastW, s)]

/-- Candidates for the mandatory `:\d{2}`. -/
def colonManCands (s : List Char) : List (Nat × Bool × List Char) :=
  match s with
  | ':' :: a :: b :: rest => if a.isDigit && b.isDigit then [(3, true, rest)] else []
  | _ => []

/-- Candidates for `\s*` in greedy order (longest whitespace prefix first). -/
def wsCands (lastW : Bool) (s : List Char) : List (Nat × Bool × List Char) :=
  let run := (s.takeWhile isSpaceChar).length
  (List.range (run + 1)).reverse.map
    (fun k => (k, if k == 0 then lastW else false, s.drop k))

/-- Candidates for the optional `(?:am|pm)?` (am, then pm, then empty). -/
def merCands (lastW : Bool) (s : List Char) : List (Nat × Bool × List Char) :=
  (match s with
   | a :: b :: rest =>
     (if lcChar a == 'a' && lcChar b == 'm' then [(2, true, rest)] else []) ++
     (if lcChar a == 'p' && lcChar b == 'm' then [(2, true, rest)] else [])
   | _ => []) ++ [(0, lastW, s)]

/-- Candidates for the mandatory `(?:am|pm)`. -/
def merManCands (s : List Char) : List (Nat × Bool × List Char) :=
  match s with
  | a :: b :: rest =>
    (if lcChar a == 'a' && lcChar b == 'm' then [(2, true, rest)] else []) ++
    (if lcChar a == 'p' && lcChar b == 'm' then [(2, true, rest)] else [])
  | _ => []

/-- `directTimePattern`
`^(?:\d{1,2}(?::\d{2})?\s*(?:am|pm)?|noon|midnight)\b`, returning the length
of the first match in backtracking order (the length feeds the
unit-of-duration check that follows it in the loop). -/
def matchDirectTime (s : List Char) : Option Nat :=
  let numeric := (digitCands s).findSome? (fun c1 =>
    (colonCands c1.2.1 c1.2.2).findSome? (fun c2 =>
      (wsCands c2.2.1 c2.2.2).findSome? (fun c3 =>
        (merCands c3.2.1 c3.2.2).findSome? (fun c4 =>
          if boundaryAfterB c4.2.1 c4.2.2 then some (c1.1 + c2.1 + c3.1 + c4.1) else none))))
  match numeric with
  | some n => some n
  | none =>
    match matchWordCIBound "noon".toList s with
    | some _ => some 4
    | none =>
      match matchWordCIBound "midnight".toList s with
      | some _ => some 8
      | none => none

/-- The duration-unit look-ahead
`^\s*(?:hours?|hrs?|minutes?|mins?|seconds?|secs?)\b`. -/
def unitFollows (remainder : List Char) : Bool :=
  let r := remainder.dropWhile isSpaceChar
  [("hour").toList, ("hr").toList, ("minute").toList, ("min").toList,
   ("second").toList, ("sec").toList].any
    (fun b => (matchWordCIBound (b ++ ['s']) r).isSome || (matchWordCIBound b r).isSome)

/-- The punctuation skipped by the guard loop: `^([,.:@\-?!])`. -/
def swetPunct (c : Char) : Bool :=
  c == ',' || c == '.' || c == ':' || c == '@' || c == '-' || c == '?' || c == '!'

/-- The connector words skipped by the guard loop:
`^(?:and|at|around|about|approximately)\b`. -/
def matchConnector (s : List Char) : Option (List Char) :=
  [("and").toList, ("at").toList, ("around").toList, ("about").toList,
   ("approximately").toList].findSome? (fun w => matchWordCIBound w s)

/-- The `while (true)` loop of `startsWithExplicitTime`: trim, skip
punctuation and connectors, and accept a direct time expression unless it is
a duration with a unit.  `some b` is a `return b` inside the loop, `none` the
`break` that falls through to the whole-text tests.  Each iteration consumes
at least one character, so fuel `length + 1` never runs out. -/
def swetLoop : Nat → List Char → Option Bool
  | 0, _ => none
  | fuel + 1, s =>
    match s.dropWhile isSpaceChar with
    | [] => some false
    | c :: cs =>
      if swetPunct c then swetLoop fuel cs
      else
        match matchConnector (c :: cs) with
        | some rest => swetLoop fuel rest
        | none =>
          match matchDirectTime (c :: cs) with
          | some len =>
            let remainder := (c :: cs).drop len
            if unitFollows remainder then swetLoop fuel remainder else some true
          | none => none

/-- A predicate tested at one text position, given the previous character. -/
def scanAny (p : Option Char → List Char → Bool) : Option Char → List Char → Bool
  | prev, [] => p prev []
  | prev, c :: rest => p prev (c :: rest) || scanAny p (some c) rest

/-- One position of `atOrSymbolTimePattern`
`\b(?:at|@)\s*(?:\d{1,2}(?::\d{2})?\s*(?:am|pm)?|noon|midnight)\b`.  The
`\b` before `@` (a non-word character) requires the previous character to be
a word character. -/
def atSymbolHere (prev : Option Char) (s : List Char) : Bool :=
  (boundaryBefore prev &&
    (match matchWordCI "at".toList s with
     | some rest => (matchDirectTime (rest.dropWhile isSpaceChar)).isSome
     | none => false)) ||
  (match s with
   | '@' :: rest =>
     (match prev with
      | some p => isWordChar p && (matchDirectTime (rest.dropWhile isSpaceChar)).isSome
      | none => false)
   | _ => false)

/-- One position of `aroundTimePattern`
`\b(?:around|about|approximately)\s*(?:\d{1,2}(?::\d{2})?\s*(?:am|pm)?|noon|midnight)\b`. -/
def aroundHere (prev : Option Char) (s : List Char) : Bool :=
  boundaryBefore prev &&
  [("around").toList, ("about").toList, ("approximately").toList].any
    (fun w =>
      match matchWordCI w s with
      | some rest => (matchDirectTime (rest.dropWhile isSpaceChar)).isSome
      | none => false)

/-- The alternatives of `forTimePattern` after `for\s*`:
`(?:\d{1,2}(?::\d{2})?\s*(?:am|pm)|\d{1,2}\s*(?:am|pm)|\d{1,2}:\d{2}|noon|midnight)\b`. -/
def matchForCore (s : List Char) : Bool :=
  ((digitCands s).findSome? (fun c1 =>
    (colonCands c1.2.1 c1.2.2).findSome? (fun c2 =>
      (wsCands c2.2.1 c2.2.2).findSome? (fun c3 =>
        (merManCands c3.2.2).findSome? (fun c4 =>
          if boundaryAfterB c4.2.1 c4.2.2 then some 0 else none))))).isSome ||
  ((digitCands s).findSome? (fun c1 =>
    (wsCands c1.2.1 c1.2.2).findSome? (fun c2 =>
      (merManCands c2.2.2).findSome? (fun c3 =>
        if boundaryAfterB c3.2.1 c3.2.2 then some 0 else none)))).isSome ||
  ((digitCands s).findSome? (fun c1 =>
    (colonManCands c1.2.2).findSome? (fun c2 =>
      if boundaryAfterB c2.2.1 c2.2.2 then some 0 else none))).isSome ||
  (matchWordCIBound "noon".toList s).isSome ||
  (matchWordCIBound "midnight".toList s).isSome

/-- One position of `forTimePattern` `\bfor\s*(...)`. -/
def forHere (prev : Option Char) (s : List Char) : Bool :=
  boundaryBefore prev &&
  (match matchWordCI "for".toList s with
   | some rest => matchForCore (rest.dropWhile isSpaceChar)
   | none => false)

/-- One position of `meridiemOrColonAnywhere`
`\b(?:\d{1,2}:\d{2}|\d{1,2}\s*(?:am|pm)|noon|midnight)\b`. -/
def meridiemColonHere (prev : Option Char) (s : List Char) : Bool :=
  boundaryBefore prev &&
  (((digitCands s).findSome? (fun c1 =>
      (colonManCands c1.2.2).findSome? (fun c2 =>
        if boundaryAfterB c2.2.1 c2.2.2 then some 0 else none))).isSome ||
   ((digitCands s).findSome? (fun c1 =>
      (wsCands c1.2.1 c1.2.2).findSome? (fun c2 =>
        (merManCands c2.2.2).findSome? (fun c3 =>
          if boundaryAfterB c3.2.1 c3.2.2 then some 0 else none)))).isSome ||
   (matchWordCIBound "noon".toList s).isSome ||
   (matchWordCIBound "midnight".toList s).isSome)

/-- `startsWithExplicitTime(text)` from src/index.js: the skip loop on the
prefix, then the four unanchored whole-text tests (note that these look at
the entire remaining text, not only at what immediately follows). -/
def startsWithExplicitTime (text : List Char) : Bool :=
  match swetLoop (text.length + 1) text with
  | some b => b
  | none =>
    scanAny atSymbolHere none text || scanAny aroundHere none text ||
    scanAny forHere none text || scanAny meridiemColonHere none text

/-- One entry of the replacement tables: a `\bw1(\s+w2)?\b` pattern (as its
word list) and the replacement text. -/
structure ReplaceRule where
  pattern : List (List Char)
  replacement : List Char
deriving DecidableEq, Repr

/-- Match the words of a phrase pattern separated by `\s+`, with the
trailing `\b` on the last word; returns the rest of the text. -/
def matchPhrase : List (List Char) → List Char → Option (List Char)
  | [], rest => some rest
  | [w], s => matchWordCIBound w s
  | w :: w2 :: ws, s =>
    match matchWordCI w s with
    | some rest =>
      match rest with
      | c :: cs =>
        if isSpaceChar c then matchPhrase (w2 :: ws) ((c :: cs).dropWhile isSpaceChar)
        else none
      | [] => none
    | none => none

/-- Phrase match anchored at the current position, with the leading `\b`
checked against the previous character; returns the matched length. -/
def phraseMatchAt (prev : Option Char) (words : List (List Char)) (s : List Char) :
    Option Nat :=
  if boundaryBefore prev then
    match matchPhrase words s with
    | some rest => some (s.length - rest.length)
    | none => none
  else none

/-- The `applyGuardedReplacement` exec loop from src/index.js: scan left to
right; at each match emit either the matched text (guard accepts the text
after the match) or the replacement, then resume after the match.  Fuel
`s.length` suffices since every iteration consumes at least one character;
the patterns never match the empty string, so the `some 0` case is dead. -/
def applyGRGo (g : List Char → Bool) (rule : ReplaceRule) :
    Nat → Option Char → List Char → List Char
  | 0, _, s => s
  | _ + 1, _, [] => []
  | fuel + 1, prev, c :: rest =>
    match phraseMatchAt prev rule.pattern (c :: rest) with
    | some (len + 1) =>
      let s := c :: rest
      let matched := s.take (len + 1)
      let after := s.drop (len + 1)
      if g after then matched ++ applyGRGo g rule fuel matched.getLast? after
      else rule.replacement ++ applyGRGo g rule fuel matched.getLast? after
    | some 0 => c :: applyGRGo g rule fuel (some c) rest
    | none => c :: applyGRGo g rule fuel (some c) rest

/-- `applyGuardedReplacement(input, rule)` with guard `g`
(`startsWithExplicitTime` for the colloquial phrases, never-accept for the
unconditional `noon`/`midnight` rewrites). -/
def applyGuardedReplacement (g : List Char → Bool) (rule : ReplaceRule)
    (prev : Option Char) (s : List Char) : List Char :=
  applyGRGo g rule s.length prev s

/-- The `guardedReplacements` table from src/index.js, in source order. -/
def guardedReplacements : List ReplaceRule :=
  [ { pattern := ["tonight".toList], replacement := "today at 9pm".toList },
    { pattern := ["this".toList, "evening".toList], replacement := "today at 7pm".toList },
    { pattern := ["this".toList, "afternoon".toList], replacement := "today at 3pm".toList },
    { pattern := ["this".toList, "morning".toList], replacement := "today at 9am".toList },
    { pattern := ["this".toList, "night".toList], replacement := "today at 9pm".toList },
    { pattern := ["tomorrow".toList, "morning".toList], replacement := "tomorrow at 9am".toList },
    { pattern := ["tomorrow".toList, "afternoon".toList], replacement := "tomorrow at 3pm".toList },
    { pattern := ["tomorrow".toList, "evening".toList], replacement := "tomorrow at 7pm".toList },
    { pattern := ["tomorrow".toList, "night".toList], replacement := "tomorrow at 9pm".toList } ]

/-- `replace(/\bnoon\b/gi, '12pm')`. -/
def noonRule : ReplaceRule := { pattern := ["noon".toList], replacement := "12pm".toList }

/-- `replace(/\bmidnight\b/gi, '12am')`. -/
def midnightRule : ReplaceRule := { pattern := ["midnight".toList], replacement := "12am".toList }

/-- Guard used for the unconditional rewrites: never keep the match. -/
def alwaysReplaceGuard : List Char → Bool := fun _ => false

/-- `normalizeTimeInput(rawInput)` from src/index.js. -/
def normalizeTimeInput (rawInput : String) : String :=
  if rawInput = "" then ""
  else
    let l0 := trimChars rawInput.toList
    let l1 := collapseWsGo false l0
    let l2 := spaceDigitLetter (spaceLetterDigit l1)
    let l3 := guardedReplacements.foldl
      (fun acc rule => applyGuardedReplacement startsWithExplicitTime rule none acc) l2
    let l4 := applyGuardedReplacement alwaysReplaceGuard midnightRule none
      (applyGuardedReplacement alwaysReplaceGuard noonRule none l3)
    String.mk (trimChars l4)

/-- Whether a phrase pattern matches anywhere in the text (used to state
that a scan tail is replacement-free). -/
def hasPhraseMatch (words : List (List Char)) : Option Char → List Char → Bool
  | _, [] => false
  | prev, c :: rest =>
    (phraseMatchAt prev words (c :: rest)).isSome || hasPhraseMatch words (some c) rest

/-- Modelled from the claim's words, for comparison with the code's guard:
the phrase is "immediately followed by an already-explicit time expression"
when, after whitespace, the very next token — optionally introduced by a
connector word such as `at` — is a time expression (digits with optional
`:minutes` and optional meridiem, or noon/midnight). -/
def claimImmediateExplicitTime (post : List Char) : Bool :=
  let r := post.dropWhile isSpaceChar
  let body :=
    match matchConnector r with
    | some rest => rest.dropWhile isSpaceChar
    | none => r
  (matchDirectTime body).isSome

/-! ## Timer registry lemmas -/

/-- Handles that can still fire for a given reminder id. -/
def liveJobsFor (rid : String) (jobs : List Job) : List Job :=
  jobs.filter (fun j => jobLive j && j.rid == rid)

/-- Well-formedness of the timer state: handle identities are below the
allocation counter and unique, and every live handle is the one registered
in `scheduledJobs` under its reminder id. -/
def SchedInv (s : SchedState) : Prop :=
  (∀ j ∈ s.jobs, j.jid < s.nextJid) ∧
  (∀ j ∈ s.jobs, ∀ j' ∈ s.jobs, j.jid = j'.jid → j = j') ∧
  (∀ j ∈ s.jobs, jobLive j = true → mapGet s.scheduledJobs j.rid = some j.jid)

theorem mapGet_mapDelete (m : List (String × Nat)) (k k' : String) :
    mapGet (mapDelete m k) k' = if k = k' then none else mapGet m k' := by
  induction m with
  | nil => simp [mapGet, mapDelete]
  | cons p rest ih =>
    obtain ⟨a, v⟩ := p
    simp only [mapDelete, mapGet]
    by_cases hak : a = k <;> by_cases hak' : a = k' <;> by_cases hkk : k = k' <;>
      simp_all [mapGet]

theorem mapGet_mapSet_self (m : List (String × Nat)) (k : String) (v : Nat) :
    mapGet (mapSet m k v) k = some v := by
  simp [mapSet, mapGet]

theorem mapGet_mapSet_ne (m : List (String × Nat)) (k k' : String) (v : Nat)
    (h : k ≠ k') : mapGet (mapSet m k v) k' = mapGet m k' := by
  simp only [mapSet, mapGet, if_neg h, mapGet_mapDelete, if_neg h]

theorem cancelScheduledJob_scheduledJobs (rid : String) (s : SchedState) :
    (cancelScheduledJob rid s).scheduledJobs = mapDelete s.scheduledJobs rid := by
  cases h : mapGet s.scheduledJobs rid <;> simp [cancelScheduledJob, h]

theorem cancelScheduledJob_nextJid (rid : String) (s : SchedState) :
    (cancelScheduledJob rid s).nextJid = s.nextJid := by
  cases h : mapGet s.scheduledJobs rid <;> simp [cancelScheduledJob, h]

/-- Cancellation maps each existing handle to itself or to its cancelled
copy; in particular jid, rid, fireAtMs and fired are untouched. -/
theorem cancelScheduledJob_mem (rid : String) (s : SchedState) (j' : Job)
    (h : j' ∈ (cancelScheduledJob rid s).jobs) :
    ∃ j ∈ s.jobs, j' = j ∨ j' = { j with cancelled := true } := by
  cases hm : mapGet s.scheduledJobs rid with
  | none =>
    refine ⟨j', ?_, Or.inl rfl⟩
    simpa [cancelScheduledJob, hm] using h
  | some jid =>
    simp only [cancelScheduledJob, hm, List.mem_map] at h
    obtain ⟨j, hj, hj'⟩ := h
    by_cases hjid : j.jid = jid
    · exact ⟨j, hj, Or.inr (by rw [← hj', if_pos hjid])⟩
    · exact ⟨j, hj, Or.inl (by rw [← hj', if_neg hjid])⟩

/-- A handle that is live after a cancellation was already present (and
live) before it. -/
theorem cancelScheduledJob_live_mem (rid : String) (s : SchedState) (j : Job)
    (h : j ∈ (cancelScheduledJob rid s).jobs) (hl : jobLive j = true) :
    j ∈ s.jobs := by
  obtain ⟨j0, hj0, hcase⟩ := cancelScheduledJob_mem rid s j h
  cases hcase with
  | inl he => rw [he]; exact hj0
  | inr he =>
    exfalso
    rw [he] at hl
    simp [jobLive] at hl

/-- With a well-formed state, cancellation leaves no live handle for the
cancelled reminder id. -/
theorem liveJobsFor_cancelScheduledJob (rid : String) (s : SchedState)
    (hInv : SchedInv s) : liveJobsFor rid (cancelScheduledJob rid s).jobs = [] := by
  obtain ⟨-, -, h3⟩ := hInv
  rw [liveJobsFor, List.filter_eq_nil_iff]
  intro j hj
  simp only [Bool.and_eq_true, beq_iff_eq, not_and]
  intro hlive hrid
  have hmem : j ∈ s.jobs := cancelScheduledJob_live_mem rid s j hj hlive
  have hreg : mapGet s.scheduledJobs j.rid = some j.jid := h3 j hmem hlive
  cases hm : mapGet s.scheduledJobs rid with
  | none => rw [hrid, hm] at hreg; exact Option.noConfusion hreg
  | some jid =>
    -- j is the image of some pre-cancellation handle
    simp only [cancelScheduledJob, hm, List.mem_map] at hj
    obtain ⟨j0, hj0, hj0e⟩ := hj
    by_cases hjid : j0.jid = jid
    · rw [if_pos hjid] at hj0e
      rw [← hj0e] at hlive
      simp [jobLive] at hlive
    · rw [if_neg hjid] at hj0e
      subst hj0e
      rw [hrid, hm] at hreg
      exact hjid (Option.some.inj hreg).symm

/-- Effect of a successful `scheduleReminder` call on a well-formed state:
the only live handle for the reminder id is the freshly created one, and the
registry maps the id to it. -/
theorem scheduleReminder_live (r : Reminder) (t now : Int) (s : SchedState)
    (hInv : SchedInv s) (hra : r.remindAt = some (some t)) (ht : now < t) :
    liveJobsFor r.id (scheduleReminder (some r) now s).jobs =
      [{ jid := s.nextJid, rid := r.id, fireAtMs := t, cancelled := false, fired := false }] ∧
    mapGet (scheduleReminder (some r) now s).scheduledJobs r.id = some s.nextJid := by
  simp only [scheduleReminder, hra, if_neg (not_le.mpr ht)]
  constructor
  · rw [liveJobsFor, List.filter_append]
    have h1 : (cancelScheduledJob r.id s).jobs.filter
        (fun j => jobLive j && j.rid == r.id) = [] :=
      liveJobsFor_cancelScheduledJob r.id s hInv
    rw [h1, cancelScheduledJob_nextJid]
    simp [jobLive]
  · rw [cancelScheduledJob_nextJid, mapGet_mapSet_self]

/-- `scheduleReminder` preserves the registry well-formedness. -/
theorem SchedInv_scheduleReminder (reminder : Option Reminder) (now : Int)
    (s : SchedState) (hInv : SchedInv s) : SchedInv (scheduleReminder reminder now s) := by
  obtain ⟨h1, h2, h3⟩ := hInv
  match reminder with
  | none => exact ⟨h1, h2, h3⟩
  | some r =>
    match hra : r.remindAt with
    | none => simpa [scheduleReminder, hra] using ⟨h1, h2, h3⟩
    | some none => simpa [scheduleReminder, hra] using ⟨h1, h2, h3⟩
    | some (some t) =>
      by_cases ht : t ≤ now
      · simpa [scheduleReminder, hra, if_pos ht] using ⟨h1, h2, h3⟩
      · simp only [scheduleReminder, hra, if_neg ht]
        have hnj := cancelScheduledJob_nextJid r.id s
        refine ⟨?_, ?_, ?_⟩
        · intro j hj
          simp only [List.mem_append, List.mem_singleton] at hj
          cases hj with
          | inl hj =>
            obtain ⟨j0, hj0, hcase⟩ := cancelScheduledJob_mem r.id s j hj
            have : j.jid = j0.jid := by cases hcase with
              | inl he => rw [he]
              | inr he => rw [he]
            rw [hnj, this]
            exact Nat.lt_succ_of_lt (h1 j0 hj0)
          | inr hj => rw [hj, hnj]; exact Nat.lt_succ_self _
        · intro j hj j' hj'
          simp only [List.mem_append, List.mem_singleton] at hj hj'
          have fresh : ∀ jx ∈ (cancelScheduledJob r.id s).jobs,
              jx.jid ≠ (cancelScheduledJob r.id s).nextJid := by
            intro jx hjx
            obtain ⟨j0, hj0, hcase⟩ := cancelScheduledJob_mem r.id s jx hjx
            have : jx.jid = j0.jid := by cases hcase with
              | inl he => rw [he]
              | inr he => rw [he]
            rw [this, hnj]
            exact Nat.ne_of_lt (h1 j0 hj0)
          cases hj with
          | inl hj =>
            cases hj' with
            | inl hj' =>
              intro hjid
              obtain ⟨j0, hj0, hc0⟩ := cancelScheduledJob_mem r.id s j hj
              obtain ⟨j1, hj1, hc1⟩ := cancelScheduledJob_mem r.id s j' hj'
              -- reduce both to the pre-cancellation images
              cases hm : mapGet s.scheduledJobs r.id with
              | none =>
                have hje : (cancelScheduledJob r.id s).jobs = s.jobs := by
                  simp [cancelScheduledJob, hm]
                rw [hje] at hj hj'
                exact h2 j hj j' hj' hjid
              | some jid =>
                simp only [cancelScheduledJob, hm, List.mem_map] at hj hj'
                obtain ⟨a, ha, hae⟩ := hj
                obtain ⟨b, hb, hbe⟩ := hj'
                have haj : j.jid = a.jid := by
                  rw [← hae]; by_cases h : a.jid = jid <;> simp [h]
                have hbj : j'.jid = b.jid := by
                  rw [← hbe]; by_cases h : b.jid = jid <;> simp [h]
                have hab : a = b := h2 a ha b hb (by rw [← haj, ← hbj, hjid])
                rw [← hae, ← hbe, hab]
            | inr hj' =>
              intro hjid
              exact absurd (by rw [hjid, hj']) (fresh j hj)
          | inr hj =>
            cases hj' with
            | inl hj' =>
              intro hjid
              exact absurd (by rw [← hjid, hj]) (fresh j' hj')
            | inr hj' => intro _; rw [hj, hj']
        · intro j hj hlive
          simp only [List.mem_append, List.mem_singleton] at hj
          cases hj with
          | inl hj =>
            have hmem : j ∈ s.jobs := cancelScheduledJob_live_mem r.id s j hj hlive
            have hrid : j.rid ≠ r.id := by
              intro he
              have : j ∈ liveJobsFor r.id (cancelScheduledJob r.id s).jobs := by
                rw [liveJobsFor, List.mem_filter]
                exact ⟨hj, by simp [hlive, he]⟩
              rw [liveJobsFor_cancelScheduledJob r.id s ⟨h1, h2, h3⟩] at this
              exact absurd this (List.not_mem_nil j)
            rw [mapGet_mapSet_ne _ _ _ _ (fun he => hrid he.symm),
              cancelScheduledJob_scheduledJobs, mapGet_mapDelete,
              if_neg (fun he => hrid he.symm)]
            exact h3 j hmem hlive
          | inr hj => rw [hj, mapGet_mapSet_self]

/-! ## Claim C2 -/

/-- C2: installing a timer via `scheduleReminder` for a strictly-future fire
time first cancels any pre-existing timer for that id and then stores the
new handle, so after any call — in particular after calling it twice in
succession for the same record — the in-memory registry holds exactly one
live timer for that id (the freshly created handle, which the registry maps
the id to). -/
theorem scheduleReminder_single_live_timer (r : Reminder) (t now : Int) (s : SchedState)
    (hInv : SchedInv s) (hra : r.remindAt = some (some t)) (ht : now < t) :
    (liveJobsFor r.id (scheduleReminder (some r) now s).jobs).length = 1 ∧
    liveJobsFor r.id (scheduleReminder (some r) now s).jobs =
      [{ jid := s.nextJid, rid := r.id, fireAtMs := t, cancelled := false, fired := false }] ∧
    mapGet (scheduleReminder (some r) now s).scheduledJobs r.id = some s.nextJid ∧
    (liveJobsFor r.id
      (scheduleReminder (some r) now (scheduleReminder (some r) now s)).jobs).length = 1 := by
  obtain ⟨hl, hm⟩ := scheduleReminder_live r t now s hInv hra ht
  refine ⟨by rw [hl]; rfl, hl, hm, ?_⟩
  have hInv' := SchedInv_scheduleReminder (some r) now s hInv
  obtain ⟨hl', -⟩ :=
    scheduleReminder_live r t now (scheduleReminder (some r) now s) hInv' hra ht
  rw [hl']; rfl

/-- Witness for C2 at a concrete record and state. -/
theorem scheduleReminder_single_live_timer_witness :
    (liveJobsFor "r1" (scheduleReminder
      (some ⟨"r1", "u1", "c1", some (some 10), none, none, false⟩) 0
      ⟨[], [], 0⟩).jobs).length = 1 ∧
    liveJobsFor "r1" (scheduleReminder
      (some ⟨"r1", "u1", "c1", some (some 10), none, none, false⟩) 0
      ⟨[], [], 0⟩).jobs = [⟨0, "r1", 10, false, false⟩] ∧
    mapGet (scheduleReminder
      (some ⟨"r1", "u1", "c1", some (some 10), none, none, false⟩) 0
      ⟨[], [], 0⟩).scheduledJobs "r1" = some 0 ∧
    (liveJobsFor "r1" (scheduleReminder
      (some ⟨"r1", "u1", "c1", some (some 10), none, none, false⟩) 0
      (scheduleReminder (some ⟨"r1", "u1", "c1", some (some 10), none, none, false⟩) 0
        ⟨[], [], 0⟩)).jobs).length = 1 :=
  scheduleReminder_single_live_timer
    ⟨"r1", "u1", "c1", some (some 10), none, none, false⟩ 10 0 ⟨[], [], 0⟩
    (by refine ⟨?_, ?_, ?_⟩ <;> intro j hj <;> simp at hj) rfl (by decide)

/-! ## Claim C10 -/

/-- C10: `scheduleReminder` is total on malformed input — called with a
missing reminder, a reminder without `remindAt`, or a `remindAt` that does
not parse as a valid date, it returns with the state untouched (no timer
installed, existing timers untouched); the cancel-then-replace path is only
reached for records with a valid fire time, and a past fire time also
returns with the state untouched.  (Totality itself is intrinsic: the model
is a total function, mirroring the `try`-wrapped early returns.) -/
theorem scheduleReminder_total_on_malformed (now : Int) (s : SchedState) :
    scheduleReminder none now s = s ∧
    (∀ r : Reminder, r.remindAt = none → scheduleReminder (some r) now s = s) ∧
    (∀ r : Reminder, r.remindAt = some none → scheduleReminder (some r) now s = s) ∧
    (∀ (r : Reminder) (t : Int), r.remindAt = some (some t) → t ≤ now →
      scheduleReminder (some r) now s = s) := by
  refine ⟨rfl, ?_, ?_, ?_⟩
  · intro r hra; simp [scheduleReminder, hra]
  · intro r hra; simp [scheduleReminder, hra]
  · intro r t hra ht; simp [scheduleReminder, hra, if_pos ht]

/-- Witness for C10 at a concrete state that does hold a live timer. -/
theorem scheduleReminder_total_on_malformed_witness :
    scheduleReminder none 0 ⟨[("r1", 5)], [⟨5, "r1", 99, false, false⟩], 6⟩ =
      ⟨[("r1", 5)], [⟨5, "r1", 99, false, false⟩], 6⟩ ∧
    scheduleReminder (some ⟨"r1", "u", "c", none, none, none, false⟩) 0
      ⟨[("r1", 5)], [⟨5, "r1", 99, false, false⟩], 6⟩ =
      ⟨[("r1", 5)], [⟨5, "r1", 99, false, false⟩], 6⟩ ∧
    scheduleReminder (some ⟨"r1", "u", "c", some none, none, none, false⟩) 0
      ⟨[("r1", 5)], [⟨5, "r1", 99, false, false⟩], 6⟩ =
      ⟨[("r1", 5)], [⟨5, "r1", 99, false, false⟩], 6⟩ ∧
    scheduleReminder (some ⟨"r1", "u", "c", some (some (-5)), none, none, false⟩) 0
      ⟨[("r1", 5)], [⟨5, "r1", 99, false, false⟩], 6⟩ =
      ⟨[("r1", 5)], [⟨5, "r1", 99, false, false⟩], 6⟩ := by
  refine ⟨(scheduleReminder_total_on_malformed 0 _).1,
    (scheduleReminder_total_on_malformed 0 _).2.1 _ rfl,
    (scheduleReminder_total_on_malformed 0 _).2.2.1 _ rfl,
    (scheduleReminder_total_on_malformed 0 _).2.2.2 _ (-5) rfl (by decide)⟩

/-! ## Advancement loop characterization (claim C1) -/

/-- Master characterization of the advancement `do..while` loop: with enough
fuel and a not-yet-capped iteration count, the loop performs `n ≥ 1`
advancement steps, its result is the `n`-fold iterate, every intermediate
iterate was at or before `now`, and a `some` result is either strictly
future or the loop stopped because the iteration count hit 400. -/
theorem advLoop_spec (kind : Recurrence) (now : Int) :
    ∀ (fuel : Nat), ∀ (iters : Nat) (t : Int) (r : Option Int) (itf : Nat),
      advLoop kind now fuel t iters = (r, itf) → iters < 400 → 400 ≤ fuel + iters →
      ∃ n : Nat, 1 ≤ n ∧ itf = iters + n ∧ itf ≤ 400 ∧ r = stepIter kind n t ∧
        (∀ m : Nat, 1 ≤ m → m < n → ∃ v, stepIter kind m t = some v ∧ v ≤ now) ∧
        (∀ d : Int, r = some d → (now < d ∨ itf = 400)) := by
  intro fuel
  induction fuel with
  | zero => intro iters t r itf _ h1 h2; omega
  | succ f ih =>
    intro iters t r itf h h1 h2
    rw [advLoop] at h
    cases hg : getNextRecurrenceDateTime (some t) kind with
    | none =>
      rw [hg] at h
      obtain ⟨rfl, rfl⟩ := Prod.mk.inj h
      refine ⟨1, le_refl 1, rfl, by omega, ?_, ?_, ?_⟩
      · simp [stepIter, hg]
      · intro m hm1 hm2; omega
      · intro d hd; exact absurd hd (by simp)
    | some nv =>
      rw [hg] at h
      change (if nv ≤ now ∧ iters + 1 < 400 then advLoop kind now f nv (iters + 1)
        else (some nv, iters + 1)) = (r, itf) at h
      by_cases hcond : nv ≤ now ∧ iters + 1 < 400
      · rw [if_pos hcond] at h
        obtain ⟨n', hn1, hn2, hn3, hn4, hn5, hn6⟩ :=
          ih (iters + 1) nv r itf h (by omega) (by omega)
        refine ⟨n' + 1, by omega, by omega, hn3, ?_, ?_, hn6⟩
        · rw [hn4]; simp [stepIter, hg]
        · intro m hm1 hmn
          match m, hm1 with
          | 1, _ => exact ⟨nv, by simp [stepIter, hg], hcond.1⟩
          | m'' + 2, _ =>
            obtain ⟨v, hv, hvle⟩ := hn5 (m'' + 1) (by omega) (by omega)
            exact ⟨v, by simpa [stepIter, hg] using hv, hvle⟩
      · rw [if_neg hcond] at h
        obtain ⟨rfl, rfl⟩ := Prod.mk.inj h
        refine ⟨1, le_refl 1, rfl, by omega, by simp [stepIter, hg], ?_, ?_⟩
        · intro m hm1 hm2; omega
        · intro d hd
          obtain rfl : nv = d := by simpa using hd
          rcases not_and_or.mp hcond with hnow | hcap
          · exact Or.inl (lt_of_not_le hnow)
          · exact Or.inr (by omega)

/-- Soundness direction of the reconciliation advancement: a `some` outcome
is the first strictly-future iterate, reached in fewer than 400 steps. -/
theorem reconcileAdvance_sound (kind : Recurrence) (now t d : Int)
    (h : reconcileAdvance kind now t = some d) :
    ∃ n : Nat, 1 ≤ n ∧ n < 400 ∧ stepIter kind n t = some d ∧ now < d ∧
      ∀ m : Nat, 1 ≤ m → m < n → ∃ v, stepIter kind m t = some v ∧ v ≤ now := by
  rw [reconcileAdvance] at h
  rcases hA : advLoop kind now 400 t 0 with ⟨r, itf⟩
  rw [hA] at h
  obtain ⟨n, hn1, hn2, hn3, hn4, hn5, hn6⟩ :=
    advLoop_spec kind now 400 0 t r itf hA (by omega) (by omega)
  cases r with
  | none => simp at h
  | some v =>
    change (if itf < 400 then some v else none) = some d at h
    by_cases hit : itf < 400
    · rw [if_pos hit] at h
      have hvd : v = d := by simpa using h
      rcases hn6 v rfl with hfut | hcap
      · exact ⟨n, hn1, by omega, by rw [← hn4, hvd], hvd ▸ hfut, hn5⟩
      · omega
    · rw [if_neg hit] at h
      simp at h

/-- Completeness direction: if the `n`-th iterate is the first strictly
future one and `n < 400`, the loop finds it. -/
theorem reconcileAdvance_complete (kind : Recurrence) (now t d : Int) (n : Nat)
    (hn1 : 1 ≤ n) (hn2 : n < 400) (hs : stepIter kind n t = some d) (hd : now < d)
    (hint : ∀ m : Nat, 1 ≤ m → m < n → ∃ v, stepIter kind m t = some v ∧ v ≤ now) :
    reconcileAdvance kind now t = some d := by
  rw [reconcileAdvance]
  rcases hA : advLoop kind now 400 t 0 with ⟨r, itf⟩
  obtain ⟨n0, h01, h02, h03, h04, h05, h06⟩ :=
    advLoop_spec kind now 400 0 t r itf hA (by omega) (by omega)
  have hn0 : n0 = n := by
    rcases lt_trichotomy n0 n with hlt | heq | hgt
    · exfalso
      obtain ⟨v, hv, hvle⟩ := hint n0 h01 hlt
      have hr : r = some v := by rw [h04, hv]
      rcases h06 v hr with hfut | hcap
      · exact absurd hfut (not_lt.mpr hvle)
      · omega
    · exact heq
    · exfalso
      obtain ⟨v, hv, hvle⟩ := h05 n hn1 hgt
      rw [hs] at hv
      obtain rfl : d = v := by simpa using hv
      exact absurd hd (not_lt.mpr hvle)
  have hitf : itf < 400 := by omega
  have hr : r = some d := by rw [h04, hn0, hs]
  rw [hr]
  change (if itf < 400 then some d else none) = some d
  rw [if_pos hitf]

/-- Daily advancement adds exactly one day per step. -/
theorem stepIter_daily (n : Nat) (t : Int) :
    stepIter .daily n t = some (t + (n : Int) * dayMs) := by
  induction n generalizing t with
  | zero => simp [stepIter]
  | succ n ih =>
    rw [stepIter]
    simp only [getNextRecurrenceDateTime, ih (t + dayMs)]
    congr 1
    push_cast
    ring

/-- Daily advancement instance of the claim: with `now` at 50.5 days past
the stored fire time, the loop lands exactly on `fireAt + 51` days. -/
theorem reconcileAdvance_daily_halfday (T : Int) :
    reconcileAdvance .daily (T + 4363200000) T = some (T + 4406400000) := by
  apply reconcileAdvance_complete .daily (T + 4363200000) T (T + 4406400000) 51
    (by omega) (by omega)
  · rw [stepIter_daily]
    norm_num [dayMs]
  · omega
  · intro m hm1 hm2
    refine ⟨T + (m : Int) * dayMs, stepIter_daily m T, ?_⟩
    have hm : (m : Int) ≤ 50 := by exact_mod_cast Nat.lt_succ_iff.mp hm2
    rw [dayMs]
    nlinarith

/-- Evaluation of the reconciliation step on a past record that carries a
recurrence kind: the outcome is decided by `reconcileAdvance`. -/
theorem reconcileMsgStep_past_recurring_eval (msg : StoreMsg) (data : Reminder)
    (kind : Recurrence) (t now : Int) (w : World) (hc : msg.content = some data)
    (hra : data.remindAt = some (some t)) (hpast : ¬ now < t)
    (hrec : data.recurrence = some kind) :
    reconcileMsgStep now msg w =
      match reconcileAdvance kind now t with
      | some d =>
        { w with store := editMsg w.store msg.mid { data with remindAt := some (some d) },
                 sched := scheduleReminder (some { data with remindAt := some (some d) })
                   now w.sched }
      | none => { w with store := deleteMsg w.store msg.mid } := by
  rw [reconcileMsgStep, hc]
  simp only [hra, hrec, Option.some_bind, Option.any_some, id_eq,
    decide_eq_true_eq, reconcileAdvanceO]
  rw [if_neg hpast]

/-! ## Claim C1 -/

/-- C1: for a persisted record whose fire time is in the past and which
carries a recurrence kind, startup reconciliation repeatedly applies the
recurrence step from the stored fire time until the result strictly exceeds
now, under the 400-iteration cap: (a) the loop yields `some d` exactly when
`d` is the first strictly-future iterate and it is reached before the cap
cuts the loop off; (b) on success the stored record is updated to the
advanced fire time and rescheduled (one live timer under a well-formed
registry); (c) hitting the cap or a `none` mid-loop deletes the record;
(d) for kind daily with now = fireAt + 50.5 days the advanced fire time is
exactly fireAt + 51 days (4406400000 ms). -/
theorem reconcile_past_recurring (msg : StoreMsg) (data : Reminder) (kind : Recurrence)
    (t now : Int) (w : World) (hc : msg.content = some data)
    (hra : data.remindAt = some (some t)) (hpast : ¬ now < t)
    (hrec : data.recurrence = some kind) :
    (∀ d : Int, reconcileAdvance kind now t = some d ↔
      ∃ n : Nat, 1 ≤ n ∧ n < 400 ∧ stepIter kind n t = some d ∧ now < d ∧
        ∀ m : Nat, 1 ≤ m → m < n → ∃ v, stepIter kind m t = some v ∧ v ≤ now) ∧
    (∀ d : Int, reconcileAdvance kind now t = some d →
      reconcileMsgStep now msg w =
        { w with store := editMsg w.store msg.mid { data with remindAt := some (some d) },
                 sched := scheduleReminder (some { data with remindAt := some (some d) })
                   now w.sched } ∧
      (SchedInv w.sched →
        liveJobsFor data.id (reconcileMsgStep now msg w).sched.jobs =
          [⟨w.sched.nextJid, data.id, d, false, false⟩])) ∧
    (reconcileAdvance kind now t = none →
      reconcileMsgStep now msg w = { w with store := deleteMsg w.store msg.mid }) ∧
    (∀ T : Int, reconcileAdvance .daily (T + 4363200000) T = some (T + 4406400000)) := by
  have heval := reconcileMsgStep_past_recurring_eval msg data kind t now w hc hra hpast hrec
  refine ⟨?_, ?_, ?_, reconcileAdvance_daily_halfday⟩
  · intro d
    constructor
    · exact reconcileAdvance_sound kind now t d
    · rintro ⟨n, hn1, hn2, hn3, hn4, hn5⟩
      exact reconcileAdvance_complete kind now t d n hn1 hn2 hn3 hn4 hn5
  · intro d hd
    rw [hd] at heval
    refine ⟨heval, ?_⟩
    intro hInv
    rw [heval]
    have hfut : now < d := by
      obtain ⟨n, -, -, -, hfut, -⟩ := reconcileAdvance_sound kind now t d hd
      exact hfut
    obtain ⟨hl, -⟩ := scheduleReminder_live { data with remindAt := some (some d) } d now
      w.sched hInv rfl hfut
    exact hl
  · intro hd
    rw [hd] at heval
    exact heval

/-- Witness for C1: concrete daily record stored at fire time 0, process
start 50.5 days later; the record is advanced to day 51 and rescheduled. -/
theorem reconcile_past_recurring_witness :
    reconcileAdvance .daily (0 + 4363200000) 0 = some (0 + 4406400000) ∧
    reconcileMsgStep 4363200000
        ⟨7, some ⟨"r1", "u1", "c1", some (some 0), none, some .daily, true⟩⟩
        ⟨⟨[], [], 0⟩, [⟨7, some ⟨"r1", "u1", "c1", some (some 0), none, some .daily, true⟩⟩],
          [], [], true, 8⟩ =
      { sched := scheduleReminder
          (some ⟨"r1", "u1", "c1", some (some (0 + 4406400000)), none, some .daily, true⟩)
          4363200000 ⟨[], [], 0⟩,
        store := editMsg
          [⟨7, some ⟨"r1", "u1", "c1", some (some 0), none, some .daily, true⟩⟩] 7
          ⟨"r1", "u1", "c1", some (some (0 + 4406400000)), none, some .daily, true⟩,
        sent := [], channels := [], storageOk := true, nextMid := 8 } := by
  have H := reconcile_past_recurring
    ⟨7, some ⟨"r1", "u1", "c1", some (some 0), none, some .daily, true⟩⟩
    ⟨"r1", "u1", "c1", some (some 0), none, some .daily, true⟩ .daily 0 4363200000
    ⟨⟨[], [], 0⟩, [⟨7, some ⟨"r1", "u1", "c1", some (some 0), none, some .daily, true⟩⟩],
      [], [], true, 8⟩
    rfl rfl (by decide) rfl
  have hadv : reconcileAdvance .daily (0 + 4363200000) 0 = some (0 + 4406400000) :=
    H.2.2.2 0
  have hadv' : reconcileAdvance .daily 4363200000 0 = some (0 + 4406400000) := by
    simpa using hadv
  exact ⟨hadv, (H.2.1 (0 + 4406400000) hadv').1⟩

/-! ## Claim C9 -/

theorem istWeekday_bounds (t : Int) : 1 ≤ istWeekday t ∧ istWeekday t ≤ 7 := by
  rw [istWeekday]
  omega

theorem istWeekday_add_day (t : Int) :
    istWeekday (t + dayMs) = if istWeekday t = 7 then 1 else istWeekday t + 1 := by
  rw [istWeekday, istWeekday, dayMs, istOffsetMs]
  have he : (t + 86400000 + 19800000) / 86400000 = (t + 19800000) / 86400000 + 1 := by
    omega
  rw [he]
  split_ifs <;> omega

/-- One advancing pass of the weekday loop. -/
theorem weekdayLoop_step (f : Nat) (next : Int) (guard : Nat)
    (h : istWeekday next > 5) (hg : guard + 1 ≤ 7) :
    weekdayLoop (f + 1) next guard = weekdayLoop f (next + dayMs) (guard + 1) := by
  rw [weekdayLoop.eq_def, if_pos h]
  simp only [if_neg (by omega : ¬ guard + 1 > 7)]

/-- Exit of the weekday loop on a working day. -/
theorem weekdayLoop_exit (fuel : Nat) (next : Int) (guard : Nat)
    (h : ¬ istWeekday next > 5) : weekdayLoop fuel next guard = some next := by
  rw [weekdayLoop.eq_def, if_neg h]

/-- C9: the weekday recurrence advances one day at a time until the result
lands on Monday..Friday (the 7-iteration guard never fires, so the result
always exists and is a working day); in particular the step from a Friday
lands exactly on the following Monday, three days later, skipping Saturday
and Sunday. -/
theorem weekday_recurrence_skips_weekend (t : Int) :
    (∃ d : Int, getNextRecurrenceDateTime (some t) .weekday = some d ∧
      1 ≤ istWeekday d ∧ istWeekday d ≤ 5) ∧
    (istWeekday t = 5 →
      getNextRecurrenceDateTime (some t) .weekday = some (t + 3 * dayMs) ∧
      istWeekday (t + 3 * dayMs) = 1) := by
  have hb1 := istWeekday_bounds (t + dayMs)
  have ha1 := istWeekday_add_day t
  have ha2 := istWeekday_add_day (t + dayMs)
  have ha3 := istWeekday_add_day (t + dayMs + dayMs)
  have hunfold : getNextRecurrenceDateTime (some t) .weekday = weekdayLoop 8 (t + dayMs) 0 :=
    rfl
  constructor
  · by_cases h1 : istWeekday (t + dayMs) > 5
    · -- Saturday or Sunday after the first step
      have e1 : weekdayLoop 8 (t + dayMs) 0 = weekdayLoop 7 (t + dayMs + dayMs) 1 :=
        weekdayLoop_step 7 (t + dayMs) 0 h1 (by omega)
      by_cases h2 : istWeekday (t + dayMs + dayMs) > 5
      · have e2 : weekdayLoop 7 (t + dayMs + dayMs) 1 =
            weekdayLoop 6 (t + dayMs + dayMs + dayMs) 2 :=
          weekdayLoop_step 6 (t + dayMs + dayMs) 1 h2 (by omega)
        have h3 : ¬ istWeekday (t + dayMs + dayMs + dayMs) > 5 := by
          rw [ha3]
          split_ifs <;> omega
        refine ⟨t + dayMs + dayMs + dayMs, ?_, ?_⟩
        · rw [hunfold, e1, e2, weekdayLoop_exit 6 _ 2 h3]
        · have := istWeekday_bounds (t + dayMs + dayMs + dayMs)
          omega
      · refine ⟨t + dayMs + dayMs, ?_, ?_⟩
        · rw [hunfold, e1, weekdayLoop_exit 7 _ 1 h2]
        · have := istWeekday_bounds (t + dayMs + dayMs)
          omega
    · exact ⟨t + dayMs, by rw [hunfold, weekdayLoop_exit 8 _ 0 h1], by omega, by omega⟩
  · intro hfri
    have h1 : istWeekday (t + dayMs) = 6 := by rw [ha1]; split_ifs <;> omega
    have h2 : istWeekday (t + dayMs + dayMs) = 7 := by rw [ha2]; split_ifs <;> omega
    have h3 : istWeekday (t + dayMs + dayMs + dayMs) = 1 := by
      rw [ha3]; rw [if_pos (by omega)]
    have e1 : weekdayLoop 8 (t + dayMs) 0 = weekdayLoop 7 (t + dayMs + dayMs) 1 :=
      weekdayLoop_step 7 (t + dayMs) 0 (by omega) (by omega)
    have e2 : weekdayLoop 7 (t + dayMs + dayMs) 1 =
        weekdayLoop 6 (t + dayMs + dayMs + dayMs) 2 :=
      weekdayLoop_step 6 (t + dayMs + dayMs) 1 (by omega) (by omega)
    have e3 : weekdayLoop 6 (t + dayMs + dayMs + dayMs) 2 =
        some (t + dayMs + dayMs + dayMs) :=
      weekdayLoop_exit 6 _ 2 (by omega)
    have hsum : t + dayMs + dayMs + dayMs = t + 3 * dayMs := by ring
    constructor
    · rw [hunfold, e1, e2, e3, hsum]
    · rw [← hsum]; exact h3

/-- Witness for C9 at a concrete Friday (1970-01-02 IST is a Friday:
`istWeekday 86400000 = 5`). -/
theorem weekday_recurrence_skips_weekend_witness :
    getNextRecurrenceDateTime (some 86400000) .weekday = some (86400000 + 3 * dayMs) ∧
    istWeekday (86400000 + 3 * dayMs) = 1 :=
  (weekday_recurrence_skips_weekend 86400000).2 (by decide)

/-! ## Claim C3 -/

/-- Evaluation of the fire callback when the re-fetched record has no
recurrence kind. -/
theorem fireCallback_no_recurrence_eval (jid : Nat) (r : Reminder) (now : Int) (w : World)
    (mid : Nat) (currentData : Reminder)
    (hch : r.channelId ∈ w.channels) (hsok : w.storageOk = true)
    (hfind : findMsgById w.store r.id = some (mid, currentData))
    (hrec : currentData.recurrence = none) :
    fireCallback jid r now w =
      { w with
        sched := { scheduledJobs := mapDelete w.sched.scheduledJobs r.id,
                   jobs := w.sched.jobs.map
                     (fun j => if j.jid = jid then { j with fired := true } else j),
                   nextJid := w.sched.nextJid },
        sent := w.sent ++ [⟨r.channelId, r.userId, r.title⟩],
        store := editMsg w.store mid { currentData with triggered := true } } := by
  rw [fireCallback]
  simp only [if_pos hch, hsok, if_true, hfind, hrec]

/-- C3: when a reminder with no recurrence kind fires, the fire handler
removes (without cancelling) its registry entry, delivers a notification to
the reminder destination, re-fetches the persisted record by id and marks it
triggered; the record is not deleted and no new timer handle is created. -/
theorem fire_no_recurrence (jid : Nat) (r : Reminder) (now : Int) (w : World)
    (mid : Nat) (currentData : Reminder)
    (hch : r.channelId ∈ w.channels) (hsok : w.storageOk = true)
    (hfind : findMsgById w.store r.id = some (mid, currentData))
    (hrec : currentData.recurrence = none) :
    mapGet (fireCallback jid r now w).sched.scheduledJobs r.id = none ∧
    (fireCallback jid r now w).sched.jobs.map (fun j => j.cancelled) =
      w.sched.jobs.map (fun j => j.cancelled) ∧
    (fireCallback jid r now w).sched.jobs.map (fun j => j.jid) =
      w.sched.jobs.map (fun j => j.jid) ∧
    (fireCallback jid r now w).sched.nextJid = w.sched.nextJid ∧
    (fireCallback jid r now w).sent = w.sent ++ [⟨r.channelId, r.userId, r.title⟩] ∧
    (fireCallback jid r now w).store =
      editMsg w.store mid { currentData with triggered := true } ∧
    (fireCallback jid r now w).store.length = w.store.length := by
  rw [fireCallback_no_recurrence_eval jid r now w mid currentData hch hsok hfind hrec]
  refine ⟨?_, ?_, ?_, rfl, rfl, rfl, ?_⟩
  · rw [mapGet_mapDelete, if_pos rfl]
  · rw [List.map_map]
    refine List.map_congr_left ?_
    intro j _
    by_cases hj : j.jid = jid <;> simp [Function.comp, hj]
  · rw [List.map_map]
    refine List.map_congr_left ?_
    intro j _
    by_cases hj : j.jid = jid <;> simp [Function.comp, hj]
  · rw [editMsg, List.length_map]

/-- Witness for C3 at a concrete fired reminder. -/
theorem fire_no_recurrence_witness :
    mapGet (fireCallback 4
      ⟨"r1", "u1", "c1", some (some 50), none, none, false⟩ 60
      ⟨⟨[("r1", 4)], [⟨4, "r1", 50, false, false⟩], 5⟩,
        [⟨9, some ⟨"r1", "u1", "c1", some (some 50), none, none, false⟩⟩],
        [], ["c1"], true, 10⟩).sched.scheduledJobs "r1" = none ∧
    (fireCallback 4
      ⟨"r1", "u1", "c1", some (some 50), none, none, false⟩ 60
      ⟨⟨[("r1", 4)], [⟨4, "r1", 50, false, false⟩], 5⟩,
        [⟨9, some ⟨"r1", "u1", "c1", some (some 50), none, none, false⟩⟩],
        [], ["c1"], true, 10⟩).sent = [] ++ [⟨"c1", "u1", none⟩] ∧
    (fireCallback 4
      ⟨"r1", "u1", "c1", some (some 50), none, none, false⟩ 60
      ⟨⟨[("r1", 4)], [⟨4, "r1", 50, false, false⟩], 5⟩,
        [⟨9, some ⟨"r1", "u1", "c1", some (some 50), none, none, false⟩⟩],
        [], ["c1"], true, 10⟩).store =
      editMsg [⟨9, some ⟨"r1", "u1", "c1", some (some 50), none, none, false⟩⟩] 9
        ⟨"r1", "u1", "c1", some (some 50), none, none, true⟩ := by
  have H := fire_no_recurrence 4
    ⟨"r1", "u1", "c1", some (some 50), none, none, false⟩ 60
    ⟨⟨[("r1", 4)], [⟨4, "r1", 50, false, false⟩], 5⟩,
      [⟨9, some ⟨"r1", "u1", "c1", some (some 50), none, none, false⟩⟩],
      [], ["c1"], true, 10⟩ 9
    ⟨"r1", "u1", "c1", some (some 50), none, none, false⟩
    (by decide) rfl (by decide) rfl
  exact ⟨H.1, H.2.2.2.2.1, H.2.2.2.2.2.1⟩

/-! ## Claim C8 -/

/-- If every stored record with the requested id belongs to a different
user, the owner-scoped scan finds nothing. -/
theorem fetchStoredReminderMessage_none (store : List StoreMsg) (rid uid : String)
    (h : ∀ m ∈ store, ∀ c : Reminder, m.content = some c → c.id = rid → c.userId ≠ uid) :
    fetchStoredReminderMessage store rid (some uid) = none := by
  induction store with
  | nil => rfl
  | cons m rest ih =>
    have hrest : fetchStoredReminderMessage rest rid (some uid) = none :=
      ih (fun m' hm' => h m' (List.mem_cons_of_mem m hm'))
    cases hc : m.content with
    | none => rw [fetchStoredReminderMessage, hc]; exact hrest
    | some c =>
      have hnc : ¬ (c.id = rid ∧ (some uid = (none : Option String) ∨
          some uid = some c.userId)) := by
        rintro ⟨hid, hor⟩
        rcases hor with h1 | h1
        · exact Option.noConfusion h1
        · exact h m (List.mem_cons_self m rest) c hc hid (Option.some.inj h1).symm
      rw [fetchStoredReminderMessage, hc]
      simp only [if_neg hnc]
      exact hrest

/-- C8: a snooze or cancel/delete request whose reminder id exists but whose
stored owner differs from the requester fails with the not-found reply (a
reply constructor that carries no record data) and leaves the whole world —
store, registry and job handles — unchanged. -/
theorem ownership_enforced (rid uid : String) (d now hostOff : Int) (w : World)
    (hsok : w.storageOk = true)
    (h : ∀ m ∈ w.store, ∀ c : Reminder, m.content = some c → c.id = rid → c.userId ≠ uid) :
    delrmeHandler rid uid w = (w, .notFound) ∧
    cancelButtonHandler rid uid w = (w, .notFound) ∧
    snoozeButtonHandler d rid uid now hostOff w = (w, .notFound) := by
  have hf := fetchStoredReminderMessage_none w.store rid uid h
  refine ⟨?_, ?_, ?_⟩ <;>
    simp [delrmeHandler, cancelButtonHandler, snoozeButtonHandler, hsok, hf]

/-- Witness for C8: the only record with id r1 belongs to alice; bob
requests. -/
theorem ownership_enforced_witness :
    delrmeHandler "r1" "bob"
      ⟨⟨[], [], 0⟩, [⟨0, some ⟨"r1", "alice", "c1", some (some 5), none, none, false⟩⟩],
        [], [], true, 1⟩ =
      (⟨⟨[], [], 0⟩, [⟨0, some ⟨"r1", "alice", "c1", some (some 5), none, none, false⟩⟩],
        [], [], true, 1⟩, .notFound) ∧
    cancelButtonHandler "r1" "bob"
      ⟨⟨[], [], 0⟩, [⟨0, some ⟨"r1", "alice", "c1", some (some 5), none, none, false⟩⟩],
        [], [], true, 1⟩ =
      (⟨⟨[], [], 0⟩, [⟨0, some ⟨"r1", "alice", "c1", some (some 5), none, none, false⟩⟩],
        [], [], true, 1⟩, .notFound) ∧
    snoozeButtonHandler 1800000 "r1" "bob" 0 0
      ⟨⟨[], [], 0⟩, [⟨0, some ⟨"r1", "alice", "c1", some (some 5), none, none, false⟩⟩],
        [], [], true, 1⟩ =
      (⟨⟨[], [], 0⟩, [⟨0, some ⟨"r1", "alice", "c1", some (some 5), none, none, false⟩⟩],
        [], [], true, 1⟩, .notFound) :=
  ownership_enforced "r1" "bob" 1800000 0 0
    ⟨⟨[], [], 0⟩, [⟨0, some ⟨"r1", "alice", "c1", some (some 5), none, none, false⟩⟩],
      [], [], true, 1⟩ rfl (by decide)

/-! ## Claim C5 -/

/-- C5: in the `/rme` handler, a parsed instant not strictly after the
reference is advanced by exactly one day and re-checked against the wall
clock; if the advanced instant is still not strictly future the handler
replies time-in-past and neither persists anything nor touches any timer,
and otherwise it persists and schedules the one-day-advanced instant. -/
theorem create_time_in_past_repair (dt0 baseIST nowWall : Int)
    (rid uid chid : String) (title : Option String) (rep : Option Recurrence)
    (w : World) (hle : dt0 ≤ baseIST) :
    (dt0 + dayMs ≤ nowWall →
      rmeCommandHandler (some dt0) baseIST nowWall rid uid chid title rep w =
        (w, .timeInPast)) ∧
    (nowWall < dt0 + dayMs → w.storageOk = true →
      rmeCommandHandler (some dt0) baseIST nowWall rid uid chid title rep w =
        ({ w with
            store := w.store ++
              [⟨w.nextMid, some ⟨rid, uid, chid, some (some (dt0 + dayMs)), title, rep, false⟩⟩],
            nextMid := w.nextMid + 1,
            sched := scheduleReminder
              (some ⟨rid, uid, chid, some (some (dt0 + dayMs)), title, rep, false⟩)
              nowWall w.sched },
         .ok (dt0 + dayMs) rid)) := by
  constructor
  · intro hpast
    simp [rmeCommandHandler, if_pos hle, if_pos hpast]
  · intro hfut hsok
    simp [rmeCommandHandler, if_pos hle, if_neg (not_le.mpr hfut), hsok]

/-- Witness for C5: "9am" parsed at 9:30am (instants 0 and 1800000); the
repair lands at 0 + one day, but the wall clock has meanwhile passed it, so
the handler rejects with time-in-past and the world is unchanged. -/
theorem create_time_in_past_repair_witness :
    rmeCommandHandler (some 0) 1800000 86400000 "r1" "u1" "c1" none none
      ⟨⟨[], [], 0⟩, [], [], [], true, 0⟩ =
    (⟨⟨[], [], 0⟩, [], [], [], true, 0⟩, .timeInPast) :=
  (create_time_in_past_repair 0 1800000 86400000 "r1" "u1" "c1" none none
    ⟨⟨[], [], 0⟩, [], [], [], true, 0⟩ (by decide)).1 (by decide)

/-! ## Claim C6 -/

theorem localMsOfDay_setTime (t h mi s ms : Int) (hh1 : 0 ≤ h) (hh2 : h < 24)
    (hm1 : 0 ≤ mi) (hm2 : mi < 60) (hs1 : 0 ≤ s) (hs2 : s < 60)
    (hx1 : 0 ≤ ms) (hx2 : ms < 1000) :
    localMsOfDay (setTime t h mi s ms) = h * 3600000 + mi * 60000 + s * 1000 + ms := by
  rw [setTime, dayStart, localMsOfDay, localMsOfDay, dayMs, istOffsetMs]
  omega

/-- Luxon `set` of all four time components changes exactly those
components. -/
theorem components_setTime (t h mi s ms : Int) (hh1 : 0 ≤ h) (hh2 : h < 24)
    (hm1 : 0 ≤ mi) (hm2 : mi < 60) (hs1 : 0 ≤ s) (hs2 : s < 60)
    (hx1 : 0 ≤ ms) (hx2 : ms < 1000) :
    hourOf (setTime t h mi s ms) = h ∧ minuteOf (setTime t h mi s ms) = mi ∧
    secondOf (setTime t h mi s ms) = s ∧ msOf (setTime t h mi s ms) = ms := by
  have hl := localMsOfDay_setTime t h mi s ms hh1 hh2 hm1 hm2 hs1 hs2 hx1 hx2
  rw [hourOf, minuteOf, secondOf, msOf, hl]
  omega

theorem hourOf_bounds (t : Int) : 0 ≤ hourOf t ∧ hourOf t < 24 := by
  rw [hourOf, localMsOfDay, dayMs, istOffsetMs]; omega

theorem minuteOf_bounds (t : Int) : 0 ≤ minuteOf t ∧ minuteOf t < 60 := by
  rw [minuteOf, localMsOfDay, dayMs, istOffsetMs]; omega

theorem secondOf_bounds (t : Int) : 0 ≤ secondOf t ∧ secondOf t < 60 := by
  rw [secondOf, localMsOfDay, dayMs, istOffsetMs]; omega

theorem msOf_bounds (t : Int) : 0 ≤ msOf t ∧ msOf t < 1000 := by
  rw [msOf, localMsOfDay, dayMs, istOffsetMs]; omega

/-- C6: for every successfully resolved input, the certainty flags govern
the result components exactly as specified — hour uncertain copies the
reference hour/minute/second (and millisecond); hour certain but minute
uncertain zeroes minute and second while keeping the parsed hour; hour and
minute certain but second uncertain zeroes the second while keeping parsed
hour and minute; all certain keeps the converted instant unchanged. -/
theorem parse_certainty_components (res : ChronoResult) (baseIST hostOff dtv : Int)
    (h : parseReminderDateTime (some res) baseIST hostOff = some dtv) :
    (res.certainHour = false →
      hourOf dtv = hourOf baseIST ∧ minuteOf dtv = minuteOf baseIST ∧
      secondOf dtv = secondOf baseIST) ∧
    (res.certainHour = true → res.certainMinute = false →
      hourOf dtv = hourOf (chronoConvertedIST res hostOff) ∧
      minuteOf dtv = 0 ∧ secondOf dtv = 0) ∧
    (res.certainHour = true → res.certainMinute = true → res.certainSecond = false →
      hourOf dtv = hourOf (chronoConvertedIST res hostOff) ∧
      minuteOf dtv = minuteOf (chronoConvertedIST res hostOff) ∧ secondOf dtv = 0) ∧
    (res.certainHour = true → res.certainMinute = true → res.certainSecond = true →
      dtv = chronoConvertedIST res hostOff) := by
  rw [parseReminderDateTime] at h
  refine ⟨?_, ?_, ?_, ?_⟩
  · intro hH
    rw [hH] at h
    simp only [Bool.false_eq_true, if_false, if_true] at h
    have hv : dtv = setTime (chronoConvertedIST res hostOff)
        (hourOf baseIST) (minuteOf baseIST) (secondOf baseIST) (msOf baseIST) := by
      simpa using h.symm
    rw [hv]
    obtain ⟨c1, c2, c3, -⟩ := components_setTime (chronoConvertedIST res hostOff)
      (hourOf baseIST) (minuteOf baseIST) (secondOf baseIST) (msOf baseIST)
      (hourOf_bounds baseIST).1 (hourOf_bounds baseIST).2
      (minuteOf_bounds baseIST).1 (minuteOf_bounds baseIST).2
      (secondOf_bounds baseIST).1 (secondOf_bounds baseIST).2
      (msOf_bounds baseIST).1 (msOf_bounds baseIST).2
    exact ⟨c1, c2, c3⟩
  · intro hH hM
    rw [hH, hM] at h
    simp only [Bool.true_eq_false, Bool.false_eq_true, if_false, if_true] at h
    have hv : dtv = setTime (chronoConvertedIST res hostOff)
        (hourOf (chronoConvertedIST res hostOff)) 0 0 0 := by
      simpa using h.symm
    rw [hv]
    obtain ⟨c1, c2, c3, -⟩ := components_setTime (chronoConvertedIST res hostOff)
      (hourOf (chronoConvertedIST res hostOff)) 0 0 0
      (hourOf_bounds _).1 (hourOf_bounds _).2 le_rfl (by norm_num) le_rfl (by norm_num)
      le_rfl (by norm_num)
    exact ⟨c1, c2, c3⟩
  · intro hH hM hS
    rw [hH, hM, hS] at h
    simp only [Bool.true_eq_false, Bool.false_eq_true, if_false, if_true] at h
    have hv : dtv = setTime (chronoConvertedIST res hostOff)
        (hourOf (chronoConvertedIST res hostOff))
        (minuteOf (chronoConvertedIST res hostOff)) 0 0 := by
      simpa using h.symm
    rw [hv]
    obtain ⟨c1, c2, c3, -⟩ := components_setTime (chronoConvertedIST res hostOff)
      (hourOf (chronoConvertedIST res hostOff))
      (minuteOf (chronoConvertedIST res hostOff)) 0 0
      (hourOf_bounds _).1 (hourOf_bounds _).2 (minuteOf_bounds _).1 (minuteOf_bounds _).2
      le_rfl (by norm_num) le_rfl (by norm_num)
    exact ⟨c1, c2, c3⟩
  · intro hH hM hS
    rw [hH, hM, hS] at h
    simp only [Bool.true_eq_false, if_false] at h
    simpa using h.symm

/-- Witness for C6: a date-only grammar result (hour uncertain) at a
concrete reference instant copies the reference time of day. -/
theorem parse_certainty_components_witness :
    hourOf (Option.getD (parseReminderDateTime
      (some ⟨1000000000, false, false, false, false⟩) 123456789 0) 0) = hourOf 123456789 ∧
    minuteOf (Option.getD (parseReminderDateTime
      (some ⟨1000000000, false, false, false, false⟩) 123456789 0) 0) = minuteOf 123456789 ∧
    secondOf (Option.getD (parseReminderDateTime
      (some ⟨1000000000, false, false, false, false⟩) 123456789 0) 0) = secondOf 123456789 :=
  (parse_certainty_components ⟨1000000000, false, false, false, false⟩ 123456789 0
    (Option.getD (parseReminderDateTime
      (some ⟨1000000000, false, false, false, false⟩) 123456789 0) 0) rfl).1 rfl

/-! ## Claim C4 -/

/-- C4 counterexample: on a UTC host (`hostOffsetMs = 0`, the deployment the
source comments describe) a 30-minute snooze at `now = 0` persists
`fireAt = 1800000 + 0 - 19800000 = -18000000` (the wall-clock-preserving
shift of `now + d` into the fixed zone), which is in the past, so
`scheduleReminder` installs no timer at all — the registry stays empty —
while the acknowledgement reports unix second 1800, an instant that is not
the persisted fire time.  This refutes the claim that every such snooze
"reschedules a timer for the new time" and "reports the new fire instant". -/
theorem snooze_counterexample :
    (snoozeButtonHandler 1800000 "r1" "u1" 0 0
      ⟨⟨[], [], 0⟩, [⟨0, some ⟨"r1", "u1", "c1", some (some 999), none, none, true⟩⟩],
        [], [], true, 1⟩).1.sched.jobs = [] ∧
    (snoozeButtonHandler 1800000 "r1" "u1" 0 0
      ⟨⟨[], [], 0⟩, [⟨0, some ⟨"r1", "u1", "c1", some (some 999), none, none, true⟩⟩],
        [], [], true, 1⟩).1.sched.scheduledJobs = [] ∧
    (snoozeButtonHandler 1800000 "r1" "u1" 0 0
      ⟨⟨[], [], 0⟩, [⟨0, some ⟨"r1", "u1", "c1", some (some 999), none, none, true⟩⟩],
        [], [], true, 1⟩).1.store =
      [⟨0, some ⟨"r1", "u1", "c1", some (some (-18000000)), none, none, false⟩⟩] ∧
    (snoozeButtonHandler 1800000 "r1" "u1" 0 0
      ⟨⟨[], [], 0⟩, [⟨0, some ⟨"r1", "u1", "c1", some (some 999), none, none, true⟩⟩],
        [], [], true, 1⟩).2 = .snoozed 1800 ∧
    (-18000000 : Int) ≠ 1800 * 1000 := by
  refine ⟨rfl, rfl, rfl, rfl, by decide⟩

/-- C4 amended: snooze on an owned record sets `fireAt` to `now + d`
shifted by `hostOffset - istOffset` (the wall-clock reading of the host
zone preserved into the fixed zone), sets `triggered := false`, persists the
update, and reports unix seconds of the unshifted `now + d`; a fresh timer
(replacing any existing one for the id) is installed exactly when the
shifted `fireAt` is strictly future — always the case on a host running in
the fixed zone, but not in general. -/
theorem snooze_amended (d : Int) (rid uid : String) (now hostOff : Int) (w : World)
    (mid : Nat) (data : Reminder) (hsok : w.storageOk = true)
    (hfetch : fetchStoredReminderMessage w.store rid (some uid) = some (mid, data)) :
    (snoozeButtonHandler d rid uid now hostOff w).1.store =
      editMsg w.store mid
        { data with remindAt := some (some (now + d + hostOff - istOffsetMs)),
                    triggered := false } ∧
    (snoozeButtonHandler d rid uid now hostOff w).2 = .snoozed ((now + d) / 1000) ∧
    (SchedInv w.sched → now < now + d + hostOff - istOffsetMs →
      liveJobsFor data.id (snoozeButtonHandler d rid uid now hostOff w).1.sched.jobs =
        [⟨w.sched.nextJid, data.id, now + d + hostOff - istOffsetMs, false, false⟩]) ∧
    (now + d + hostOff - istOffsetMs ≤ now →
      (snoozeButtonHandler d rid uid now hostOff w).1.sched = w.sched) := by
  have heval : snoozeButtonHandler d rid uid now hostOff w =
      ({ w with
          store := editMsg w.store mid
            { data with
              remindAt := some (some (now + d + hostOff - istOffsetMs)),
              triggered := false },
          sched := scheduleReminder
            (some { data with
              remindAt := some (some (now + d + hostOff - istOffsetMs)),
              triggered := false }) now w.sched },
        SnoozeReply.snoozed ((now + d) / 1000)) := by
    rw [snoozeButtonHandler]
    simp only [hsok, Bool.true_eq_false, if_false, hfetch]
  rw [heval]
  refine ⟨rfl, rfl, ?_, ?_⟩
  · intro hInv hfut
    have hl := (scheduleReminder_live
      { data with
        remindAt := some (some (now + d + hostOff - istOffsetMs)),
        triggered := false }
      (now + d + hostOff - istOffsetMs) now w.sched hInv rfl hfut).1
    simpa using hl
  · intro hpast
    have hs := (scheduleReminder_total_on_malformed now w.sched).2.2.2
      { data with
        remindAt := some (some (now + d + hostOff - istOffsetMs)),
        triggered := false }
      (now + d + hostOff - istOffsetMs) rfl hpast
    simpa using hs

/-- Witness for the amended C4 on a host clock in the fixed zone: the
shifted fire time is `now + d`, strictly future, and exactly one live timer
is installed for it. -/
theorem snooze_amended_witness :
    (snoozeButtonHandler 1800000 "r1" "u1" 0 19800000
      ⟨⟨[], [], 0⟩, [⟨0, some ⟨"r1", "u1", "c1", some (some 999), none, none, true⟩⟩],
        [], [], true, 1⟩).1.store =
      editMsg [⟨0, some ⟨"r1", "u1", "c1", some (some 999), none, none, true⟩⟩] 0
        ⟨"r1", "u1", "c1", some (some (0 + 1800000 + 19800000 - istOffsetMs)), none, none,
          false⟩ ∧
    (snoozeButtonHandler 1800000 "r1" "u1" 0 19800000
      ⟨⟨[], [], 0⟩, [⟨0, some ⟨"r1", "u1", "c1", some (some 999), none, none, true⟩⟩],
        [], [], true, 1⟩).2 = .snoozed ((0 + 1800000) / 1000) ∧
    liveJobsFor "r1" (snoozeButtonHandler 1800000 "r1" "u1" 0 19800000
      ⟨⟨[], [], 0⟩, [⟨0, some ⟨"r1", "u1", "c1", some (some 999), none, none, true⟩⟩],
        [], [], true, 1⟩).1.sched.jobs =
      [⟨0, "r1", 0 + 1800000 + 19800000 - istOffsetMs, false, false⟩] := by
  have H := snooze_amended 1800000 "r1" "u1" 0 19800000
    ⟨⟨[], [], 0⟩, [⟨0, some ⟨"r1", "u1", "c1", some (some 999), none, none, true⟩⟩],
      [], [], true, 1⟩ 0
    ⟨"r1", "u1", "c1", some (some 999), none, none, true⟩ rfl (by decide)
  exact ⟨H.1, H.2.1,
    H.2.2.1 (by refine ⟨?_, ?_, ?_⟩ <;> intro j hj <;> simp at hj) (by decide)⟩

/-! ## Claim C7 -/

/-- A scan over text without any phrase occurrence changes nothing. -/
theorem applyGRGo_no_match (g : List Char → Bool) (rule : ReplaceRule) :
    ∀ (fuel : Nat) (prev : Option Char) (s : List Char),
      hasPhraseMatch rule.pattern prev s = false → applyGRGo g rule fuel prev s = s := by
  intro fuel
  induction fuel with
  | zero => intro prev s _; rfl
  | succ f ih =>
    intro prev s h
    cases s with
    | nil => rfl
    | cons c rest =>
      rw [hasPhraseMatch] at h
      simp only [Bool.or_eq_false_iff] at h
      obtain ⟨h1, h2⟩ := h
      have hnone : phraseMatchAt prev rule.pattern (c :: rest) = none := by
        rcases hp : phraseMatchAt prev rule.pattern (c :: rest) with - | v
        · rfl
        · rw [hp] at h1; simp at h1
      rw [applyGRGo]
      simp only [hnone]
      rw [ih (some c) rest h2]

/-- The guarded-replacement scan on `phrase ++ post`, where the phrase
matches at the head and does not occur again: keep the phrase when the guard
accepts `post`, else emit the replacement — in both cases `post` follows
untouched. -/
theorem applyGuardedReplacement_head_match (g : List Char → Bool) (rule : ReplaceRule)
    (phrase post : List Char) (hne : phrase ≠ [])
    (hmatch : phraseMatchAt none rule.pattern (phrase ++ post) = some phrase.length)
    (hrest : hasPhraseMatch rule.pattern phrase.getLast? post = false) :
    applyGuardedReplacement g rule none (phrase ++ post) =
      (if g post then phrase else rule.replacement) ++ post := by
  rw [applyGuardedReplacement]
  cases phrase with
  | nil => exact absurd rfl hne
  | cons c pr =>
    have hlen : ((c :: pr) ++ post).length = (pr ++ post).length + 1 := by
      simp
    rw [hlen]
    have hcons : (c :: pr) ++ post = c :: (pr ++ post) := rfl
    rw [hcons] at hmatch ⊢
    have hlen2 : (c :: pr).length = pr.length + 1 := rfl
    rw [hlen2] at hmatch
    rw [applyGRGo]
    simp only [hmatch]
    have htake : (c :: (pr ++ post)).take (pr.length + 1) = c :: pr := by simp
    have hdrop : (c :: (pr ++ post)).drop (pr.length + 1) = post := by simp
    rw [htake, hdrop]
    rw [applyGRGo_no_match g rule (pr ++ post).length ((c :: pr).getLast?) post]
    · by_cases hg : g post <;> simp [hg]
    · exact hrest

/-- C7 counterexample: in "tonight buy milk at 8pm" the phrase "tonight" is
not immediately followed by an explicit time expression (what follows is
"buy milk ..."), so the claim predicts the phrase is rewritten to
"today at 9pm"; but the code's guard also accepts a time expression
appearing anywhere later in the remainder, so the phrase is left unchanged
(only the digit/letter spacing step fires). -/
theorem normalize_guard_counterexample :
    claimImmediateExplicitTime " buy milk at 8 pm".toList = false ∧
    normalizeTimeInput "tonight buy milk at 8pm" = "tonight buy milk at 8 pm" ∧
    normalizeTimeInput "tonight buy milk at 8pm" ≠ "today at 9pm buy milk at 8 pm" := by
  refine ⟨by decide, rfl, by decide⟩

/-- C7 amended: input normalization rewrites each colloquial phrase into its
explicit "day at hour-meridiem" form if and only if the code's guard
`startsWithExplicitTime` rejects the text after the phrase; the guard skips
punctuation and connector words, and also accepts a time expression
appearing anywhere later in the remaining text (not only immediately after
the phrase).  In particular "tonight at 8pm" keeps its phrase (the only
change is digit/letter spacing), "tonight buy milk at 8pm" also keeps it,
and a bare "tonight" becomes "today at 9pm". -/
theorem normalize_guard_amended :
    (∀ rule : ReplaceRule, rule ∈ guardedReplacements →
      ∀ phrase post : List Char, phrase ≠ [] →
        phraseMatchAt none rule.pattern (phrase ++ post) = some phrase.length →
        hasPhraseMatch rule.pattern phrase.getLast? post = false →
        applyGuardedReplacement startsWithExplicitTime rule none (phrase ++ post) =
          (if startsWithExplicitTime post then phrase else rule.replacement) ++ post) ∧
    normalizeTimeInput "tonight at 8pm" = "tonight at 8 pm" ∧
    normalizeTimeInput "tonight buy milk at 8pm" = "tonight buy milk at 8 pm" ∧
    normalizeTimeInput "tonight" = "today at 9pm" := by
  refine ⟨?_, rfl, rfl, rfl⟩
  intro rule _ phrase post hne hmatch hrest
  exact applyGuardedReplacement_head_match startsWithExplicitTime rule phrase post
    hne hmatch hrest

/-- Witness for the amended C7 at the tonight rule with post " at 8 pm". -/
theorem normalize_guard_amended_witness :
    applyGuardedReplacement startsWithExplicitTime
      ⟨["tonight".toList], "today at 9pm".toList⟩ none
      ("tonight".toList ++ " at 8 pm".toList) =
      (if startsWithExplicitTime " at 8 pm".toList then "tonight".toList
       else "today at 9pm".toList) ++ " at 8 pm".toList :=
  normalize_guard_amended.1 ⟨["tonight".toList], "today at 9pm".toList⟩ (by decide)
    "tonight".toList " at 8 pm".toList (by decide) (by decide) (by decide)
